import Mathlib

/-!
Verification of the knowledge-graph construction and local-search subsystem of
the Fixella backend (`backend/agents/kb_store.py`), together with the
step-synthesis helper (`backend/index.py` / `backend/agents/resolution_steps_agent.py`).

The Python code operates on JSON-like ticket records (dicts with arbitrary
values).  We embed those values as the inductive type `Val` below, and give
executable Lean versions of the Python primitives the code uses (truthiness,
`str()`, `.strip()`, `.lower()`, `.split()`, slicing, `or`-chains, dict
`get`).  The SHA-1 hash used by `_make_id` / `_hash_text` is implemented in
full over `Nat` with explicit `% 2^32` arithmetic.

Numeric similarity scores are modelled as exact rationals.  The Python code
compares IEEE doubles (`len(inter)/denom >= 0.6`); for the integer
cardinalities involved (both below 2^26) the double comparison agrees with
the exact rational comparison against 3/5, because no fraction a/b with
b ≤ 2^26 other than 3/5 itself lies within a rounding error of the double
nearest to 0.6.
-/

set_option maxRecDepth 1000000

/- JSON-like Python values (`None`, `bool`, `int`, `str`, `list`, `dict`).
`vdict` keeps insertion order, like a Python dict.  Floats do not occur in
the modelled code paths and are not modelled. -/
mutual
inductive Val where
  | vnull
  | vbool (b : Bool)
  | vint (n : Int)
  | vstr (s : String)
  | vlist (xs : ValItems)
  | vdict (kvs : ValFields)
  deriving DecidableEq
inductive ValItems where
  | nil
  | cons (hd : Val) (tl : ValItems)
  deriving DecidableEq
inductive ValFields where
  | nil
  | cons (key : String) (val : Val) (tl : ValFields)
  deriving DecidableEq
end

def ValItems.toList : ValItems → List Val
  | .nil => []
  | .cons x xs => x :: xs.toList

def ValFields.toList : ValFields → List (String × Val)
  | .nil => []
  | .cons k v tl => (k, v) :: tl.toList

/-- Build a `ValItems` from a Lean list (for writing concrete inputs). -/
def ValItems.ofList : List Val → ValItems
  | [] => .nil
  | x :: xs => .cons x (ValItems.ofList xs)

/-- Build a `ValFields` from a Lean list (for writing concrete inputs). -/
def ValFields.ofList : List (String × Val) → ValFields
  | [] => .nil
  | (k, v) :: xs => .cons k v (ValFields.ofList xs)

/-- Python truthiness: `None`, `False`, `0`, `""`, `[]`, `{}` are falsy. -/
def truthy : Val → Bool
  | .vnull => false
  | .vbool b => b
  | .vint n => n != 0
  | .vstr s => s ≠ ""
  | .vlist .nil => false
  | .vlist _ => true
  | .vdict .nil => false
  | .vdict _ => true

/- Python `repr` of a value.  Quote-escaping inside string reprs is not
modelled (the modelled code never reprs strings containing quotes). -/
mutual
def pyRepr : Val → String
  | .vnull => "None"
  | .vbool true => "True"
  | .vbool false => "False"
  | .vint n => toString n
  | .vstr s => "\x27" ++ s ++ "\x27"
  | .vlist xs => "[" ++ pyReprItems xs ++ "]"
  | .vdict kvs => "\x7b" ++ pyReprFields kvs ++ "\x7d"
def pyReprItems : ValItems → String
  | .nil => ""
  | .cons x .nil => pyRepr x
  | .cons x (.cons y xs) => pyRepr x ++ ", " ++ pyReprItems (.cons y xs)
def pyReprFields : ValFields → String
  | .nil => ""
  | .cons k v .nil => "\x27" ++ k ++ "\x27: " ++ pyRepr v
  | .cons k v (.cons k2 v2 xs) =>
      "\x27" ++ k ++ "\x27: " ++ pyRepr v ++ ", " ++ pyReprFields (.cons k2 v2 xs)
end

/-- Python `str()`. -/
def pyStr : Val → String
  | .vstr s => s
  | v => pyRepr v

/-- Python dict lookup `d.get(k)` without default: `none` when absent. -/
def dictGet : ValFields → String → Option Val
  | .nil, _ => none
  | .cons k v tl, key => if k = key then some v else dictGet tl key

/-- Python `d.get(k)` (default `None`). -/
def tget (t : ValFields) (k : String) : Val := (dictGet t k).getD .vnull

/-- Python `d.get(k, dflt)`. -/
def tgetD (t : ValFields) (k : String) (dflt : Val) : Val := (dictGet t k).getD dflt

/-- Python `a or b` (on values). -/
def pyOr (a b : Val) : Val := if truthy a then a else b

/-- The whitespace set of Python `str.strip()` / `str.split()` (ASCII part;
the code never handles non-ASCII whitespace). -/
def pyIsSpace (c : Char) : Bool :=
  c = ' ' || c = '\t' || c = '\n' || c = '\x0d' || c = '\x0b' || c = '\x0c'

/-- Python `str.strip()`. -/
def pyStrip (s : String) : String :=
  ⟨((s.data.dropWhile pyIsSpace).reverse.dropWhile pyIsSpace).reverse⟩

/-- Python `str.lower()` (ASCII part). -/
def pyLower (s : String) : String := ⟨s.data.map Char.toLower⟩

/-- Python `str.replace(" ", "_")`. -/
def pyUnderscore (s : String) : String :=
  ⟨s.data.map (fun c => if c = ' ' then '_' else c)⟩

/-- Python slicing `s[:n]` (counts characters, like Python). -/
def pySlice (n : Nat) (s : String) : String := ⟨s.data.take n⟩

def pySplitWsAux (cur : List Char) : List Char → List String
  | [] => if cur.isEmpty then [] else [⟨cur.reverse⟩]
  | c :: cs =>
      if pyIsSpace c then
        if cur.isEmpty then pySplitWsAux [] cs else ⟨cur.reverse⟩ :: pySplitWsAux [] cs
  else pySplitWsAux (c :: cur) cs

/-- Python `str.split()` with no argument: split on whitespace runs, no
empty tokens. -/
def pySplitWs (s : String) : List String := pySplitWsAux [] s.data

/- ----------------------------------------------------------------- -/
/- SHA-1 (as used by `hashlib.sha1(...).hexdigest()`)                 -/
/- ----------------------------------------------------------------- -/

def M32 : Nat := 2 ^ 32

def rotl (n x : Nat) : Nat :=
  ((x <<< n) % M32) ||| (x >>> (32 - n))

def w32not (x : Nat) : Nat := 0xFFFFFFFF ^^^ x

/-- UTF-8 encoding of one code point (`str.encode("utf-8")`). -/
def utf8Encode (c : Char) : List Nat :=
  let n := c.toNat
  if n < 0x80 then [n]
  else if n < 0x800 then [0xC0 ||| (n >>> 6), 0x80 ||| (n &&& 0x3F)]
  else if n < 0x10000 then
    [0xE0 ||| (n >>> 12), 0x80 ||| ((n >>> 6) &&& 0x3F), 0x80 ||| (n &&& 0x3F)]
  else
    [0xF0 ||| (n >>> 18), 0x80 ||| ((n >>> 12) &&& 0x3F),
     0x80 ||| ((n >>> 6) &&& 0x3F), 0x80 ||| (n &&& 0x3F)]

def strBytes (s : String) : List Nat := s.data.flatMap utf8Encode

def sha1Pad (msg : List Nat) : List Nat :=
  let ml := 8 * msg.length
  let padLen := (55 + 64 - (msg.length % 64)) % 64 + 1
  msg ++ [0x80] ++ List.replicate (padLen - 1) 0 ++
    [(ml >>> 56) &&& 0xFF, (ml >>> 48) &&& 0xFF, (ml >>> 40) &&& 0xFF, (ml >>> 32) &&& 0xFF,
     (ml >>> 24) &&& 0xFF, (ml >>> 16) &&& 0xFF, (ml >>> 8) &&& 0xFF, ml &&& 0xFF]

def bytesToWords : List Nat → List Nat
  | b0 :: b1 :: b2 :: b3 :: rest =>
      ((b0 <<< 24) ||| (b1 <<< 16) ||| (b2 <<< 8) ||| b3) :: bytesToWords rest
  | _ => []

/-- Message-schedule extension; `acc` holds the words produced so far in
reverse order, so `acc[2], acc[7], acc[13], acc[15]` are
`w[i-3], w[i-8], w[i-14], w[i-16]`. -/
def sha1ExtendAux : Nat → List Nat → List Nat
  | 0, acc => acc
  | n + 1, acc =>
      let w := rotl 1 ((acc.getD 2 0) ^^^ (acc.getD 7 0) ^^^ (acc.getD 13 0) ^^^ (acc.getD 15 0))
      sha1ExtendAux n (w :: acc)

def sha1Rounds : List Nat → Nat → Nat × Nat × Nat × Nat × Nat → Nat × Nat × Nat × Nat × Nat
  | [], _, st => st
  | w :: ws, i, (a, b, c, d, e) =>
      let f := if i < 20 then (b &&& c) ||| ((w32not b) &&& d)
               else if i < 40 then b ^^^ c ^^^ d
               else if i < 60 then (b &&& c) ||| (b &&& d) ||| (c &&& d)
               else b ^^^ c ^^^ d
      let k := if i < 20 then 0x5A827999 else if i < 40 then 0x6ED9EBA1
               else if i < 60 then 0x8F1BBCDC else 0xCA62C1D6
      let temp := (rotl 5 a + f + e + k + w) % M32
      sha1Rounds ws (i + 1) (temp, a, rotl 30 b, c, d)

def sha1Block (block : List Nat) (h : Nat × Nat × Nat × Nat × Nat) :
    Nat × Nat × Nat × Nat × Nat :=
  let ws := (sha1ExtendAux 64 (bytesToWords block).reverse).reverse
  let (h0, h1, h2, h3, h4) := h
  let (a, b, c, d, e) := sha1Rounds ws 0 (h0, h1, h2, h3, h4)
  ((h0 + a) % M32, (h1 + b) % M32, (h2 + c) % M32, (h3 + d) % M32, (h4 + e) % M32)

/-- Process the padded message 64 bytes at a time (fuel-based so that the
kernel can evaluate it). -/
def sha1Loop : Nat → List Nat → Nat × Nat × Nat × Nat × Nat → Nat × Nat × Nat × Nat × Nat
  | 0, _, h => h
  | _ + 1, [], h => h
  | n + 1, b :: rest, h => sha1Loop n ((b :: rest).drop 64) (sha1Block ((b :: rest).take 64) h)

def sha1Blocks (msg : List Nat) (h : Nat × Nat × Nat × Nat × Nat) :
    Nat × Nat × Nat × Nat × Nat :=
  sha1Loop msg.length msg h

def hexDigit (n : Nat) : Char :=
  if n < 10 then Char.ofNat (48 + n) else Char.ofNat (87 + n)

def wordHex (w : Nat) : List Char :=
  [28, 24, 20, 16, 12, 8, 4, 0].map (fun sh => hexDigit ((w >>> sh) &&& 0xF))

/-- `hashlib.sha1(s.encode("utf-8")).hexdigest()`. -/
def sha1Hex (s : String) : String :=
  let h :=
    sha1Blocks (sha1Pad (strBytes s)) (0x67452301, 0xEFCDAB89, 0x98BADCFE, 0x10325476, 0xC3D2E1F0)
  String.mk (wordHex h.1 ++ wordHex h.2.1 ++ wordHex h.2.2.1 ++ wordHex h.2.2.2.1 ++
    wordHex h.2.2.2.2)

/- ----------------------------------------------------------------- -/
/- kb_store.py : deterministic ids and step extraction                -/
/- ----------------------------------------------------------------- -/

/-- `_make_id(prefix, value)` from `kb_store.py`:
`v = str(value or "").strip()`, `safe = v.replace(" ", "_")[:200]`,
`h = hashlib.sha1(v.encode("utf-8")).hexdigest()[:8]`,
result `f"{prefix}:{safe}:{h}"`.  All call sites pass a `str` value, so
`value` is a `String` here and `str(value or "")` collapses to
`if value = "" then "" else value` (which is just `value`). -/
def make_id (pfx : String) (value : String) : String :=
  let v := pyStrip (if value = "" then "" else value)
  let safe := pySlice 200 (pyUnderscore v)
  let h := pySlice 8 (sha1Hex v)
  pfx ++ ":" ++ safe ++ ":" ++ h

/-- `_hash_text(text)`: first 10 hex digits of the SHA-1 of the text. -/
def hash_text (text : String) : String := pySlice 10 (sha1Hex text)

/-- The gathering phase of `_extract_steps_from_ticket`: the raw strings
appended to `steps`, in order — `resolutionSteps` entries (stringified),
then each worklog-like list (`text`/`note`/`description` of dict entries,
other entries stringified), then a truthy string `resolution` field. -/
def rawSteps (t : ValFields) : List String :=
  (match tget t "resolutionSteps" with
   | .vlist xs => xs.toList.map pyStr
   | _ => []) ++
  (["worklog", "work_log", "work_logs", "logs"].flatMap (fun key =>
    match tget t key with
    | .vlist xs => xs.toList.flatMap (fun entry =>
        match entry with
        | .vdict d =>
            let text := pyOr (tget d "text") (pyOr (tget d "note") (tget d "description"))
            if truthy text then [pyStr text] else []
        | _ => [pyStr entry])
    | _ => [])) ++
  (match tget t "resolution" with
   | .vstr s => if truthy (.vstr s) then [s] else []
   | _ => [])

/-- `_extract_steps_from_ticket`: gather, then the dedupe loop
(`s2 = s.strip(); if s2 and s2 not in seen: seen.add(s2); cleaned.append(s2)`).
The pair is `(seen, cleaned)`. -/
def extract_steps_from_ticket (t : ValFields) : List String :=
  ((rawSteps t).foldl
    (fun (p : List String × List String) s =>
      let s2 := pyStrip s
      if s2 ≠ "" ∧ ¬ s2 ∈ p.1 then (p.1 ++ [s2], p.2 ++ [s2]) else p)
    ([], [])).2

/- ----------------------------------------------------------------- -/
/- kb_store.py : the knowledge-graph build                            -/
/- ----------------------------------------------------------------- -/

/-- A graph node `{"id", "type", "label", "meta"}` (`ty` models the
`"type"` field; `type` is a Lean keyword). -/
structure KGNode where
  id : String
  ty : String
  label : String
  meta : ValFields
  deriving DecidableEq

/-- A graph edge `{"source", "target", "type", "weight"}`.  Endpoints are
`Val` because the source can in principle pass `id_map.get(...)`, i.e.
`None`, as an endpoint.  Weights are exact rationals. -/
structure KGEdge where
  source : Val
  target : Val
  ty : String
  weight : ℚ
  deriving DecidableEq

/-- One imperative step of the build: a call to `add_node` or `add_edge`. -/
inductive KGOp where
  | addNode (key ty label : String) (meta : ValFields)
  | addEdge (src tgt : Val) (rel : String) (weight : ℚ)
  deriving DecidableEq

/-- The builder state: `nodes_by_key` (insertion-ordered dict) and the
`edges` list. -/
structure KGState where
  nodesByKey : List (String × KGNode)
  edges : List KGEdge
  deriving DecidableEq

/-- `add_node`: create the node only if the key is not yet present. -/
def add_node (s : KGState) (key ty label : String) (meta : ValFields) : KGState :=
  if (s.nodesByKey.map Prod.fst).contains key then s
  else { s with nodesByKey :=
          s.nodesByKey ++ [(key, { id := key, ty := ty, label := label, meta := meta })] }

/-- `add_edge`: append an edge record. -/
def add_edge (s : KGState) (src tgt : Val) (rel : String) (w : ℚ) : KGState :=
  { s with edges := s.edges ++ [{ source := src, target := tgt, ty := rel, weight := w }] }

def execOp (s : KGState) : KGOp → KGState
  | .addNode k ty l m => add_node s k ty l m
  | .addEdge a b r w => add_edge s a b r w

def execOps (s : KGState) (ops : List KGOp) : KGState := ops.foldl execOp s

/-- `tid_raw = t.get("ticketId") or t.get("id") or t.get("displayId")`. -/
def tidRaw (t : ValFields) : Val :=
  pyOr (tget t "ticketId") (pyOr (tget t "id") (tget t "displayId"))

/-- `ticket_node_id = _make_id("ticket", str(tid_raw))`. -/
def ticketNodeId (t : ValFields) : String := make_id "ticket" (pyStr (tidRaw t))

/-- `str(t.get("displayId") or t.get("ticketId") or t.get("subject") or ticket_node_id)`. -/
def ticketLabel (t : ValFields) (tnid : String) : String :=
  pyStr (pyOr (tget t "displayId") (pyOr (tget t "ticketId") (pyOr (tget t "subject") (.vstr tnid))))

/-- First pass: one Ticket node per ticket with a truthy identifier. -/
def pass1Ops (t : ValFields) : List KGOp :=
  if truthy (tidRaw t) then
    let tnid := ticketNodeId t
    [.addNode tnid "Ticket" (ticketLabel t tnid) (.cons "ticket" (.vdict t) .nil)]
  else []

/-- Technician section of the second pass. -/
def techOps (t : ValFields) (tnid : String) : List KGOp :=
  let tech := pyOr (tget t "technician") (pyOr (tget t "resolver") (tget t "assignedTo"))
  let userId := match tech with
    | .vdict d => pyOr (tget d "userId") (tget d "id")
    | _ => tech
  let name := match tech with
    | .vdict d => pyOr (tget d "name") (tget d "displayName")
    | _ => tech
  if truthy userId then
    let nid := make_id "technician" (pyStr userId)
    [.addNode nid "Technician" (pyStr (pyOr name userId)) (.cons "raw" tech .nil),
     .addEdge (.vstr nid) (.vstr tnid) "resolved" 1]
  else []

/-- Python `str + value`: raises `TypeError` unless the value is a string.
Used by the category label `' / ' + subcat`. -/
def pyConcatStrVal (a : String) (v : Val) : Except String String :=
  match v with
  | .vstr s => .ok (a ++ s)
  | _ => .error "TypeError: can only concatenate str"

/-- Category section.  The label appends `" / " + subcat` when `subcat`
is truthy; that inner concatenation is a plain string concatenation and
raises `TypeError` when `subcat` is truthy but not a string. -/
def catOps (t : ValFields) (tnid : String) : Except String (List KGOp) :=
  let cat := pyOr (tget t "category") (tget t "type")
  let subcat := pyOr (tget t "subcategory") (tget t "sub_type")
  if truthy cat then
    let catKey := if truthy subcat then pyStr cat ++ ":" ++ pyStr subcat else pyStr cat
    let nid := make_id "category" catKey
    match (if truthy subcat then pyConcatStrVal " / " subcat else .ok "") with
    | .error er => .error er
    | .ok tail =>
      let label := pyStr cat ++ tail
      .ok [.addNode nid "Category" label (.cons "category" cat (.cons "subcategory" subcat .nil)),
           .addEdge (.vstr tnid) (.vstr nid) "category" 1]
  else .ok []

/-- Root-cause section. -/
def rcOps (t : ValFields) (tnid : String) : List KGOp :=
  let rc := pyOr (tget t "rootCause") (pyOr (tget t "root_cause") (tget t "cause"))
  if truthy rc then
    let nid := make_id "rootcause" (pyStr rc)
    [.addNode nid "RootCause" (pyStr rc) (.cons "raw" rc .nil),
     .addEdge (.vstr tnid) (.vstr nid) "root_cause" 1]
  else []

/-- Asset section. -/
def assetOps (t : ValFields) (tnid : String) : List KGOp :=
  let asset := pyOr (tget t "asset") (pyOr (tget t "device") (tget t "cmdb_asset"))
  if truthy asset then
    let aid := match asset with
      | .vdict d => pyOr (tget d "id") (pyOr (tget d "assetId") (tget d "name"))
      | _ => asset
    let label := match asset with
      | .vdict d => pyOr (tget d "name") aid
      | _ => .vstr (pyStr asset)
    let nid := make_id "asset" (pyStr aid)
    [.addNode nid "Asset" (pyStr label) (.cons "raw" asset .nil),
     .addEdge (.vstr tnid) (.vstr nid) "asset" 1]
  else []

/-- Step section: one Step node (keyed by content hash) and one `step`
edge per extracted step; the label truncates long steps to 140 characters
plus an ellipsis. -/
def stepOps (t : ValFields) (tnid : String) : List KGOp :=
  (extract_steps_from_ticket t).flatMap (fun s =>
    let sid := make_id "step" (hash_text s)
    [.addNode sid "Step" (if 140 < s.length then pySlice 140 s ++ "..." else s)
       (.cons "step" (.vstr s) .nil),
     .addEdge (.vstr tnid) (.vstr sid) "step" 1])

/-- Client/site section. -/
def clientOps (t : ValFields) (tnid : String) : List KGOp :=
  let client := pyOr (tget t "client") (pyOr (tget t "site") (tget t "location"))
  if truthy client then
    let nid := make_id "client" (pyStr client)
    [.addNode nid "Client" (pyStr client) .nil,
     .addEdge (.vstr tnid) (.vstr nid) "client_site" 1]
  else []

/-- Impact/severity section. -/
def impactOps (t : ValFields) (tnid : String) : List KGOp :=
  let impact := pyOr (tget t "impact") (tget t "severity")
  if truthy impact then
    let nid := make_id "impact" (pyStr impact)
    [.addNode nid "Impact" (pyStr impact) .nil,
     .addEdge (.vstr tnid) (.vstr nid) "impact" 1]
  else []

/-- Second pass for one ticket, in source order: technician, category,
root cause, asset, steps, client, impact.  Only the category section can
raise. -/
def pass2Ops (t : ValFields) : Except String (List KGOp) :=
  if truthy (tidRaw t) then
    let tnid := ticketNodeId t
    match catOps t tnid with
    | .error er => .error er
    | .ok cOps =>
        .ok (techOps t tnid ++ cOps ++ rcOps t tnid ++ assetOps t tnid ++
             stepOps t tnid ++ clientOps t tnid ++ impactOps t tnid)
  else .ok []

/-- Python dict assignment `m[k] = v` (overwrite keeps position). -/
def dictInsert (m : List (String × String)) (k v : String) : List (String × String) :=
  if m.any (fun p => p.1 = k) then m.map (fun p => if p.1 = k then (k, v) else p)
  else m ++ [(k, v)]

/-- `id_map`: `str(tid_raw) -> ticket_node_id` for every ticket with a
truthy identifier. -/
def idMap (tickets : List ValFields) : List (String × String) :=
  tickets.foldl
    (fun m t => if truthy (tidRaw t) then dictInsert m (pyStr (tidRaw t)) (ticketNodeId t) else m)
    []

/-- `id_map.get(k)`. -/
def idMapGet (m : List (String × String)) (k : String) : Option String :=
  (m.find? (fun p => p.1 = k)).map Prod.snd

/-- Python `None`-or-string as a `Val` (for the unguarded
`add_edge(ticket_node_id, ...)` in the explicit-similarity pass, whose
source is `id_map.get(str(tid_raw))`). -/
def optVal : Option String → Val
  | some s => .vstr s
  | none => .vnull

/-- Explicit-similarity pass for one ticket:
`sim_list = t.get("similar_ticket_ids") or t.get("similar") or t.get("relatedTickets")`;
for each listed id present in `id_map`, a forward and a reverse
`similar_to` edge with the default weight 1.0. -/
def explicitOpsT (im : List (String × String)) (t : ValFields) : List KGOp :=
  if truthy (tidRaw t) then
    let tn := idMapGet im (pyStr (tidRaw t))
    let simList := pyOr (tget t "similar_ticket_ids") (pyOr (tget t "similar") (tget t "relatedTickets"))
    match simList with
    | .vlist l => l.toList.flatMap (fun sid =>
        match idMapGet im (pyStr sid) with
        | some b => [.addEdge (optVal tn) (.vstr b) "similar_to" 1,
                     .addEdge (.vstr b) (optVal tn) "similar_to" 1]
        | none => [])
    | _ => []
  else []

def explicitOps (im : List (String × String)) (tickets : List ValFields) : List KGOp :=
  tickets.flatMap (explicitOpsT im)

/-- `tokens = set(tok for tok in str(t.get("subject") or "").lower().split() if len(tok) > 2)`. -/
def subjectTokens (t : ValFields) : Finset String :=
  ((pySplitWs (pyLower (pyStr (pyOr (tget t "subject") (.vstr ""))))).filter
    (fun tok => 2 < tok.length)).toFinset

/-- The `subjects` list: `(str(tid_raw), tokens)` for each ticket with a
truthy identifier. -/
def subjectsOf (tickets : List ValFields) : List (String × Finset String) :=
  tickets.filterMap (fun t =>
    if truthy (tidRaw t) then some (pyStr (tidRaw t), subjectTokens t) else none)

/-- All index pairs `i < j` of a list, in the order of the Python double
loop (`for i in range(n): for j in range(i+1, n)`). -/
def pairsUpper : List α → List (α × α)
  | [] => []
  | x :: xs => xs.map (fun y => (x, y)) ++ pairsUpper xs

/-- The subject-token-overlap similarity score
`len(tok_i & tok_j) / max(len(tok_i), len(tok_j))` as an exact rational. -/
def overlapScore (tokI tokJ : Finset String) : ℚ :=
  ((tokI ∩ tokJ).card : ℚ) / (max tokI.card tokJ.card : ℚ)

/-- Body of the overlap double loop for one `(i, j)` pair. -/
def overlapOpsPair (im : List (String × String))
    (p : (String × Finset String) × (String × Finset String)) : List KGOp :=
  let (idI, tokI) := p.1
  let (idJ, tokJ) := p.2
  if tokI = ∅ ∨ tokJ = ∅ then []
  else
    let denom := max tokI.card tokJ.card
    if denom = 0 then []
    else
      let score := overlapScore tokI tokJ
      if 3 / 5 ≤ score then
        match idMapGet im idI, idMapGet im idJ with
        | some a, some b =>
            if a ≠ "" ∧ b ≠ "" then
              [.addEdge (.vstr a) (.vstr b) "similar_to" score,
               .addEdge (.vstr b) (.vstr a) "similar_to" score]
            else []
        | _, _ => []
      else []

def overlapOps (im : List (String × String)) (tickets : List ValFields) : List KGOp :=
  (pairsUpper (subjectsOf tickets)).flatMap (overlapOpsPair im)

/-- The second-pass loop over all tickets: the first uncaught exception
aborts the whole build. -/
def pass2All : List ValFields → Except String (List (List KGOp))
  | [] => .ok []
  | t :: ts =>
    match pass2Ops t with
    | .error er => .error er
    | .ok l =>
      match pass2All ts with
      | .error er => .error er
      | .ok ls => .ok (l :: ls)

/-- `_build_kg_from_tickets`: the four passes in source order.  The result
is `(list(nodes_by_key.values()), edges)`; an uncaught Python exception
(the category-label `TypeError`) is an `Except.error`. -/
def build_kg_from_tickets (tickets : List ValFields) :
    Except String (List KGNode × List KGEdge) :=
  let s0 : KGState := { nodesByKey := [], edges := [] }
  let s1 := execOps s0 (tickets.flatMap pass1Ops)
  match pass2All tickets with
  | .error er => .error er
  | .ok opsPerTicket =>
    let s2 := execOps s1 opsPerTicket.flatten
    let im := idMap tickets
    let s3 := execOps s2 (explicitOps im tickets)
    let s4 := execOps s3 (overlapOps im tickets)
    .ok (s4.nodesByKey.map Prod.snd, s4.edges)

/- ----------------------------------------------------------------- -/
/- kb_store.py : search_tickets_by_text                               -/
/- ----------------------------------------------------------------- -/

/-- `needle` is a prefix of `hay` (over character lists). -/
def startsWithList : List Char → List Char → Bool
  | [], _ => true
  | _ :: _, [] => false
  | a :: as, b :: bs => a = b && startsWithList as bs

/-- Python substring test `needle in hay` (over character lists). -/
def containsSub (hay needle : List Char) : Bool :=
  (List.range (hay.length + 1)).any (fun i => startsWithList needle (hay.drop i))

/-- Stable insertion of `x` into a list sorted by `le` (ties keep the
existing element first, so inserting later elements after earlier ones
preserves original order on ties). -/
def insertStable (le : α → α → Bool) (x : α) : List α → List α
  | [] => [x]
  | y :: ys => if le x y then x :: y :: ys else y :: insertStable le x ys

/-- Stable insertion sort by a boolean `le`; models the stable Python
`list.sort` / `sorted`. -/
def insertionSort (le : α → α → Bool) : List α → List α
  | [] => []
  | x :: xs => insertStable le x (insertionSort le xs)

/-- The per-ticket score of `search_tickets_by_text`:
subject substring match scores 10, description substring match scores 2. -/
def searchScore (q : String) (t : ValFields) : Nat :=
  let subject := pyLower (pyStr (tgetD t "subject" (.vstr "")))
  let desc := pyLower (pyStr (tgetD t "description" (.vstr "")))
  (if containsSub subject.data q.data then 10 else 0) +
  (if containsSub desc.data q.data then 2 else 0)

/-- The `scores` list: `(score, ticket)` for tickets with positive score,
in original ticket order. -/
def searchScored (q : String) (tickets : List ValFields) : List (Nat × ValFields) :=
  tickets.filterMap (fun t =>
    let score := searchScore q t
    if 0 < score then some (score, t) else none)

/-- `search_tickets_by_text(query, top_k)` over a given ticket snapshot:
empty (falsy) query returns `[]`; otherwise score, stable-sort by
descending score (`scores.sort(key=lambda x: -x[0])`), truncate to
`top_k`, and drop the scores. -/
def search_tickets_by_text (tickets : List ValFields) (query : String) (top_k : Nat) :
    List ValFields :=
  if query = "" then []
  else
    let q := pyLower (pyStrip query)
    let scores := searchScored q tickets
    (((insertionSort (fun a b => b.1 ≤ a.1) scores).take top_k).map Prod.snd)

/- ----------------------------------------------------------------- -/
/- index.py / resolution_steps_agent.py :                             -/
/- synthesize_steps_from_retrievals                                   -/
/- ----------------------------------------------------------------- -/

/-- A retrieval hit as consumed by `synthesize_steps_from_retrievals`.
The hits handed to it are `_format_hit` outputs, whose
`"resolutionSteps"` entry is always a (possibly empty) list of strings;
the `r.get("resolutionSteps", []) or []` guard in the source only
normalizes an absent/falsy entry to `[]`, which this shape absorbs. -/
structure Retrieval where
  resolutionSteps : List String
  deriving DecidableEq

/-- One iteration of the synthesis loop: trim the step, register it in
`seen`/`order` on first sight, then increment its count. -/
def synthStep (st : List (String × Nat) × List String) (step : String) :
    List (String × Nat) × List String :=
  let n := pyStrip step
  let st1 := if st.1.any (fun p => p.1 = n) then st else (st.1 ++ [(n, 0)], st.2 ++ [n])
  (st1.1.map (fun p => if p.1 = n then (p.1, p.2 + 1) else p), st1.2)

/-- The full fold over all hits and their steps, producing the final
`(seen, order)`. -/
def synthFold (retrievals : List Retrieval) : List (String × Nat) × List String :=
  retrievals.foldl (fun st r => r.resolutionSteps.foldl synthStep st) ([], [])

/-- `seen[s]` (0 when absent, though the sort only looks up members). -/
def seenCount (seen : List (String × Nat)) (s : String) : Nat :=
  ((seen.find? (fun p => p.1 = s)).map Prod.snd).getD 0

/-- The sort key comparison of
`sorted(order, key=lambda s: (-seen[s], order.index(s)))`:
lexicographic ≤ on `(-count, first-seen index)`. -/
def synthKeyLe (seen : List (String × Nat)) (order : List String) (a b : String) : Bool :=
  let ka : Int × Nat := (-(seenCount seen a : Int), order.indexOf a)
  let kb : Int × Nat := (-(seenCount seen b : Int), order.indexOf b)
  ka.1 < kb.1 || (ka.1 = kb.1 && ka.2 ≤ kb.2)

/-- `synthesize_steps_from_retrievals(retrievals, max_steps)` (identical in
`index.py` and `resolution_steps_agent.py`). -/
def synthesize_steps_from_retrievals (retrievals : List Retrieval) (max_steps : Nat) :
    List String :=
  let (seen, order) := synthFold retrievals
  (insertionSort (synthKeyLe seen order) order).take max_steps

/- ----------------------------------------------------------------- -/
/- Auxiliary definitions for the proofs                               -/
/- ----------------------------------------------------------------- -/

/-- The edge produced by an op (`none` for `add_node` calls). -/
def edgeOfOp : KGOp → Option KGEdge
  | .addEdge a b r w => some { source := a, target := b, ty := r, weight := w }
  | .addNode _ _ _ _ => none

/-- The keys of `nodes_by_key`, in insertion order. -/
def keysOf (s : KGState) : List String := s.nodesByKey.map Prod.fst

/-- Well-formedness of the node dict: distinct keys, and each node's `id`
is its key. -/
def nodesWf (s : KGState) : Prop :=
  (keysOf s).Nodup ∧ ∀ p ∈ s.nodesByKey, p.2.id = p.1

/-- Every edge endpoint refers to an existing node key. -/
def edgeEndpointsIn (s : KGState) : Prop :=
  ∀ e ∈ s.edges,
    (∃ k ∈ keysOf s, e.source = Val.vstr k) ∧ (∃ k ∈ keysOf s, e.target = Val.vstr k)

/-- `edgesOk ks ops`: running `ops`, every `addEdge` refers only to keys
in `ks` or keys added by an earlier `addNode` of the same run. -/
def edgesOk : List String → List KGOp → Prop
  | _, [] => True
  | ks, .addNode k _ _ _ :: rest => edgesOk (ks ++ [k]) rest
  | ks, .addEdge a b _ _ :: rest =>
      (∃ k ∈ ks, a = Val.vstr k) ∧ (∃ k ∈ ks, b = Val.vstr k) ∧ edgesOk ks rest

/-- The node keys introduced by an op list. -/
def nodeKeysOf (ops : List KGOp) : List String :=
  ops.filterMap (fun op => match op with | .addNode k _ _ _ => some k | _ => none)

def initKG : KGState := { nodesByKey := [], edges := [] }

/-- The state after all four passes, given the per-ticket second-pass op
lists (which is what `build_kg_from_tickets` computes when no exception
occurs). -/
def finalState (ts : List ValFields) (opsPT : List (List KGOp)) : KGState :=
  execOps
    (execOps
      (execOps (execOps initKG (ts.flatMap pass1Ops)) opsPT.flatten)
      (explicitOps (idMap ts) ts))
    (overlapOps (idMap ts) ts)

/-- First-occurrence deduplication (the `seen`/`cleaned` policy);
`seen` is the accumulator of already-kept strings. -/
def dedupFirstAux (seen : List String) : List String → List String
  | [] => []
  | x :: xs => if x ∈ seen then dedupFirstAux seen xs else x :: dedupFirstAux (seen ++ [x]) xs

def dedupFirst (l : List String) : List String := dedupFirstAux [] l

/-- The step-extraction result described by the spec: trim the gathered
strings, drop empties, dedupe keeping first occurrences. -/
def extractStepsSpec (t : ValFields) : List String :=
  dedupFirst (((rawSteps t).map pyStrip).filter (fun s => s ≠ ""))

/-- All resolution-step strings of a hit list, in order, trimmed. -/
def allTrimmedSteps (retrievals : List Retrieval) : List String :=
  (retrievals.flatMap Retrieval.resolutionSteps).map pyStrip

/- ----------------------------------------------------------------- -/
/- Concrete fixtures for witnesses and counterexamples                -/
/- ----------------------------------------------------------------- -/

def tkP1 : ValFields := .ofList
  [("ticketId", .vstr "1"), ("subject", .vstr "printer jam error"),
   ("similar_ticket_ids", .vlist (.ofList [.vstr "2"])),
   ("resolutionSteps", .vlist (.ofList [.vstr "Clear paper tray", .vstr "Restart printer"]))]

def tkP2 : ValFields := .ofList
  [("ticketId", .vstr "2"), ("subject", .vstr "printer jam issue"),
   ("resolutionSteps", .vlist (.ofList [.vstr "Clear paper tray"]))]

/-- A ticket with a truthy non-string `subcategory`: the category label
concatenation `' / ' + subcat` raises `TypeError` on it. -/
def tkBadSubcat : ValFields := .ofList
  [("ticketId", .vstr "T1"), ("category", .vstr "hardware"), ("subcategory", .vint 5)]

/- ----------------------------------------------------------------- -/
/- General lemmas                                                     -/
/- ----------------------------------------------------------------- -/

lemma ite_empty_self (v : String) : (if v = "" then "" else v) = v := by
  split <;> simp_all

lemma make_id_eq (p v : String) :
    make_id p v =
      p ++ ":" ++ pySlice 200 (pyUnderscore (pyStrip v)) ++ ":" ++ pySlice 8 (sha1Hex (pyStrip v)) := by
  simp [make_id, ite_empty_self]

lemma wordHex_length (w : Nat) : (wordHex w).length = 8 := by
  simp [wordHex]

lemma sha1Hex_data_length (s : String) : (sha1Hex s).data.length = 40 := by
  simp [sha1Hex, wordHex_length]

lemma slice8_sha1_length (s : String) : (pySlice 8 (sha1Hex s)).data.length = 8 := by
  show ((sha1Hex s).data.take 8).length = 8
  rw [List.length_take, sha1Hex_data_length]
  decide

lemma make_id_hash_inj (p v1 v2 : String)
    (h : pySlice 8 (sha1Hex (pyStrip v1)) ≠ pySlice 8 (sha1Hex (pyStrip v2))) :
    make_id p v1 ≠ make_id p v2 := by
  intro he
  apply h
  rw [make_id_eq, make_id_eq] at he
  have hd := congrArg String.data he
  simp only [String.data_append] at hd
  have hlen : (pySlice 8 (sha1Hex (pyStrip v1))).data.length =
      (pySlice 8 (sha1Hex (pyStrip v2))).data.length := by
    rw [slice8_sha1_length, slice8_sha1_length]
  have h2 := (List.append_inj' hd hlen).2
  exact congrArg String.mk h2

/-- C5 (counterexample): `_make_id` hashes the STRIPPED value, not the
original one, so two different values (`"a "` and `"a"`) with the same
truncated sanitized prefix can yield the SAME id: the hash suffixes do
not differ, refuting the claimed collision avoidance. -/
theorem C5_counterexample :
    ("a " : String) ≠ "a" ∧
    pySlice 200 (pyUnderscore (pyStrip "a ")) = pySlice 200 (pyUnderscore (pyStrip "a")) ∧
    make_id "t" "a " = make_id "t" "a" :=
  ⟨by decide, by decide, by decide⟩

/-- C5 (amended): `_make_id` is idempotent; the id is the prefix, the
stringified-stripped-space-underscored value truncated to 200 characters,
and an 8-hex-character SHA-1 prefix of the STRIPPED (but untruncated)
value; and two calls whose stripped values have different 8-hex hash
prefixes yield different ids even when the truncated sanitized prefixes
coincide. -/
theorem C5_make_id (p v v1 v2 : String)
    (h : pySlice 8 (sha1Hex (pyStrip v1)) ≠ pySlice 8 (sha1Hex (pyStrip v2))) :
    make_id p v = make_id p v ∧
    make_id p v =
      p ++ ":" ++ pySlice 200 (pyUnderscore (pyStrip v)) ++ ":" ++ pySlice 8 (sha1Hex (pyStrip v)) ∧
    make_id p v1 ≠ make_id p v2 :=
  ⟨rfl, make_id_eq p v, make_id_hash_inj p v1 v2 h⟩

/-- C5 witness: instantiated at `"a b"` versus `"a_b"`, whose sanitized
prefixes coincide but whose hash suffixes differ. -/
theorem C5_make_id_witness :
    make_id "t" "x" = make_id "t" "x" ∧
    make_id "t" "x" =
      "t" ++ ":" ++ pySlice 200 (pyUnderscore (pyStrip "x")) ++ ":" ++ pySlice 8 (sha1Hex (pyStrip "x")) ∧
    make_id "t" "a b" ≠ make_id "t" "a_b" :=
  C5_make_id "t" "x" "a b" "a_b" (by decide)

/-- C6 (code bug): the spec requires the builder never to raise on
malformed ticket shapes, but a ticket whose `subcategory` is a truthy
non-string makes the category-label expression `" / " + subcat` raise
`TypeError`, aborting the whole build. -/
theorem C6_build_raises_on_int_subcategory :
    build_kg_from_tickets [tkBadSubcat] = .error "TypeError: can only concatenate str" := by
  rfl

/-- C7: the build is a pure function of the ticket list — two runs on the
same list yield identical node-id lists and identical multisets of
`(source, target, type)` edge triples. -/
theorem C7_determinism (ts : List ValFields) (n1 e1 n2 e2 : _)
    (h1 : build_kg_from_tickets ts = .ok (n1, e1))
    (h2 : build_kg_from_tickets ts = .ok (n2, e2)) :
    n1.map KGNode.id = n2.map KGNode.id ∧
    ((e1.map (fun e => (e.source, e.target, e.ty)) : Multiset (Val × Val × String)) =
      (e2.map (fun e => (e.source, e.target, e.ty)) : Multiset (Val × Val × String))) := by
  rw [h1] at h2
  obtain ⟨hn, he⟩ : n1 = n2 ∧ e1 = e2 := by
    have := Except.ok.inj h2
    exact ⟨congrArg Prod.fst this, congrArg Prod.snd this⟩
  subst hn he
  exact ⟨rfl, rfl⟩

/-- C7 witness: a concrete two-ticket build. -/
theorem C7_determinism_witness :
    ∃ n e, build_kg_from_tickets [tkP1, tkP2] = .ok (n, e) ∧
      (n.map KGNode.id = n.map KGNode.id ∧
       ((e.map (fun ed => (ed.source, ed.target, ed.ty)) : Multiset (Val × Val × String)) =
         (e.map (fun ed => (ed.source, ed.target, ed.ty)) : Multiset (Val × Val × String)))) :=
  ⟨_, _, rfl, C7_determinism [tkP1, tkP2] _ _ _ _ rfl rfl⟩

lemma extract_fold_eq (l : List String) (seen cleaned : List String) :
    (l.foldl (fun (p : List String × List String) s =>
        let s2 := pyStrip s
        if s2 ≠ "" ∧ ¬ s2 ∈ p.1 then (p.1 ++ [s2], p.2 ++ [s2]) else p) (seen, cleaned)).2 =
      cleaned ++ dedupFirstAux seen ((l.map pyStrip).filter (fun s => s ≠ "")) := by
  induction l generalizing seen cleaned with
  | nil => simp [dedupFirstAux]
  | cons s rest ih =>
    simp only [List.foldl_cons, List.map_cons, List.filter_cons]
    by_cases h1 : pyStrip s = ""
    · simp [h1, ih]
    · by_cases h2 : pyStrip s ∈ seen
      · simp [h1, h2, ih, dedupFirstAux]
      · simp [h1, h2, ih, dedupFirstAux]

lemma dedupFirstAux_nodup_and_fresh (l : List String) :
    ∀ seen, (dedupFirstAux seen l).Nodup ∧ ∀ x ∈ dedupFirstAux seen l, x ∉ seen := by
  induction l with
  | nil => intro seen; simp [dedupFirstAux]
  | cons x xs ih =>
    intro seen
    by_cases hx : x ∈ seen
    · simpa [dedupFirstAux, hx] using ih seen
    · obtain ⟨hnd, hfresh⟩ := ih (seen ++ [x])
      refine ⟨?_, ?_⟩
      · simp only [dedupFirstAux, if_neg hx, List.nodup_cons]
        exact ⟨fun hmem => by simpa using (hfresh x hmem), hnd⟩
      · intro y hy
        simp only [dedupFirstAux, if_neg hx, List.mem_cons] at hy
        rcases hy with rfl | hy
        · exact hx
        · intro hys; exact hfresh y hy (by simp [hys])

lemma dedupFirst_nodup (l : List String) : (dedupFirst l).Nodup :=
  (dedupFirstAux_nodup_and_fresh l []).1

/-- C3: `_extract_steps_from_ticket` returns exactly the raw gathered
strings (in `resolutionSteps`/worklog/`resolution` order) trimmed, with
empties dropped and exact duplicates removed keeping first occurrences;
in particular every returned step occurs exactly once. -/
theorem C3_extract_steps (t : ValFields) :
    extract_steps_from_ticket t = extractStepsSpec t ∧
    (extract_steps_from_ticket t).Nodup ∧
    ∀ s ∈ extract_steps_from_ticket t, (extract_steps_from_ticket t).count s = 1 := by
  have heq : extract_steps_from_ticket t = extractStepsSpec t := by
    unfold extract_steps_from_ticket extractStepsSpec dedupFirst
    simpa using extract_fold_eq (rawSteps t) [] []
  have hnd : (extract_steps_from_ticket t).Nodup := by
    rw [heq]; exact dedupFirst_nodup _
  exact ⟨heq, hnd, fun s hs => List.count_eq_one_of_mem hnd hs⟩

/- ----------------------------------------------------------------- -/
/- Stable insertion sort lemmas                                       -/
/- ----------------------------------------------------------------- -/

lemma insertStable_perm (le : α → α → Bool) (x : α) (l : List α) :
    (insertStable le x l).Perm (x :: l) := by
  induction l with
  | nil => simp [insertStable]
  | cons y ys ih =>
    by_cases h : le x y
    · simp [insertStable, h]
    · simp only [insertStable, h, if_false, Bool.false_eq_true]
      exact (ih.cons y).trans (List.Perm.swap x y ys)

lemma insertionSort_perm (le : α → α → Bool) (l : List α) :
    (insertionSort le l).Perm l := by
  induction l with
  | nil => simp [insertionSort]
  | cons x xs ih => exact (insertStable_perm le x (insertionSort le xs)).trans (ih.cons x)

lemma insertStable_pairwise (le : α → α → Bool)
    (htot : ∀ a b, le a b || le b a) (htrans : ∀ a b c, le a b → le b c → le a c)
    (x : α) (l : List α) (hl : l.Pairwise (le · ·)) :
    (insertStable le x l).Pairwise (le · ·) := by
  induction l with
  | nil => simp [insertStable]
  | cons y ys ih =>
    rcases List.pairwise_cons.mp hl with ⟨hy, hys⟩
    by_cases h : le x y
    · rw [show insertStable le x (y :: ys) = x :: y :: ys by simp [insertStable, h]]
      refine List.pairwise_cons.mpr ⟨?_, hl⟩
      intro z hz
      rcases List.mem_cons.mp hz with rfl | hz
      · exact h
      · exact htrans x y z h (hy z hz)
    · have hxy : le y x := by
        rcases Bool.or_eq_true_iff.mp (htot x y) with h1 | h1
        · exact absurd h1 h
        · exact h1
      rw [show insertStable le x (y :: ys) = y :: insertStable le x ys by simp [insertStable, h]]
      refine List.pairwise_cons.mpr ⟨?_, ih hys⟩
      intro z hz
      have hz' := (insertStable_perm le x ys).mem_iff.mp hz
      rcases List.mem_cons.mp hz' with rfl | hz'
      · exact hxy
      · exact hy z hz'

lemma insertionSort_pairwise (le : α → α → Bool)
    (htot : ∀ a b, le a b || le b a) (htrans : ∀ a b c, le a b → le b c → le a c)
    (l : List α) : (insertionSort le l).Pairwise (le · ·) := by
  induction l with
  | nil => simp [insertionSort]
  | cons x xs ih => exact insertStable_pairwise le htot htrans x _ ih

lemma insertStable_filter (le : α → α → Bool) (p : α → Bool) (x : α) (l : List α)
    (hcomp : ∀ y, le x y = false → p x = true → p y = false) :
    (insertStable le x l).filter p =
      (if p x then x :: l.filter p else l.filter p) := by
  induction l with
  | nil => by_cases hx : p x <;> simp [insertStable, hx]
  | cons y ys ih =>
    by_cases h : le x y
    · by_cases hx : p x <;> simp [insertStable, h, hx, List.filter_cons]
    · have hpy : p x = true → p y = false := hcomp y (by simp [h])
      by_cases hx : p x
      · have : p y = false := hpy hx
        simp [insertStable, h, List.filter_cons, this, ih, hx]
      · simp only [insertStable, h, if_neg, Bool.not_eq_true, List.filter_cons]
        by_cases hy : p y <;> simp [hy, ih, hx]

lemma insertionSort_filter (le : α → α → Bool) (p : α → Bool)
    (hcomp : ∀ x y, le x y = false → p x = true → p y = false) (l : List α) :
    (insertionSort le l).filter p = l.filter p := by
  induction l with
  | nil => simp [insertionSort]
  | cons x xs ih =>
    rw [insertionSort, insertStable_filter le p x _ (fun y h => hcomp x y h), List.filter_cons]
    by_cases hx : p x <;> simp [hx, ih]

lemma searchScored_mem (q : String) (ts : List ValFields) (p : Nat × ValFields)
    (hp : p ∈ searchScored q ts) :
    p.1 = searchScore q p.2 ∧ 0 < p.1 ∧ p.2 ∈ ts := by
  rcases List.mem_filterMap.mp hp with ⟨t, ht, hsome⟩
  by_cases h : 0 < searchScore q t
  · simp only [h, if_pos] at hsome
    cases hsome
    exact ⟨rfl, h, ht⟩
  · simp [h] at hsome

lemma searchScore_pos_cases (q : String) (t : ValFields) (h : 0 < searchScore q t) :
    containsSub (pyLower (pyStr (tgetD t "subject" (.vstr "")))).data q.data ∨
    containsSub (pyLower (pyStr (tgetD t "description" (.vstr "")))).data q.data := by
  by_cases h1 : containsSub (pyLower (pyStr (tgetD t "subject" (.vstr "")))).data q.data
  · exact Or.inl h1
  · by_cases h2 : containsSub (pyLower (pyStr (tgetD t "description" (.vstr "")))).data q.data
    · exact Or.inr h2
    · exfalso
      have : searchScore q t = 0 := by
        simp [searchScore, h1, h2]
      omega

/-- C8: the local text search returns only tickets whose lower-cased
subject or description contains the stripped lower-cased query; results
come from the positively-scored list (subject 10, description 2), sorted
by descending score with ties in original ticket order, truncated to
`top_k`; an empty query returns `[]`. -/
theorem C8_search_tickets_by_text (ts : List ValFields) (query : String) (k : Nat) :
    (query = "" → search_tickets_by_text ts query k = []) ∧
    (search_tickets_by_text ts query k).length ≤ k ∧
    (∀ t ∈ search_tickets_by_text ts query k,
        containsSub (pyLower (pyStr (tgetD t "subject" (.vstr "")))).data
          (pyLower (pyStrip query)).data ∨
        containsSub (pyLower (pyStr (tgetD t "description" (.vstr "")))).data
          (pyLower (pyStrip query)).data) ∧
    (query ≠ "" →
      ∃ sorted : List (Nat × ValFields),
        search_tickets_by_text ts query k = (sorted.take k).map Prod.snd ∧
        sorted.Perm (searchScored (pyLower (pyStrip query)) ts) ∧
        List.Pairwise (fun x y => y.1 ≤ x.1) sorted ∧
        ∀ c, sorted.filter (fun x => x.1 == c) =
          (searchScored (pyLower (pyStrip query)) ts).filter (fun x => x.1 == c)) := by
  by_cases hq : query = ""
  · subst hq
    refine ⟨fun _ => rfl, ?_, ?_, ?_⟩
    · simp [search_tickets_by_text]
    · intro t ht; simp [search_tickets_by_text] at ht
    · intro h; exact absurd rfl h
  · set q := pyLower (pyStrip query) with hqdef
    set le : Nat × ValFields → Nat × ValFields → Bool := fun a b => b.1 ≤ a.1 with hle
    have hres : search_tickets_by_text ts query k =
        ((insertionSort le (searchScored q ts)).take k).map Prod.snd := by
      simp [search_tickets_by_text, hq]
    have htot : ∀ a b : Nat × ValFields, le a b || le b a := by
      intro a b; simp [hle]; omega
    have htrans : ∀ a b c : Nat × ValFields, le a b → le b c → le a c := by
      intro a b c; simp [hle]; omega
    refine ⟨fun h => absurd h hq, ?_, ?_, ?_⟩
    · rw [hres]
      calc (((insertionSort le (searchScored q ts)).take k).map Prod.snd).length
          = ((insertionSort le (searchScored q ts)).take k).length := List.length_map _ _
        _ ≤ k := List.length_take_le _ _
    · intro t ht
      rw [hres] at ht
      rcases List.mem_map.mp ht with ⟨p, hp, rfl⟩
      have hp2 : p ∈ insertionSort le (searchScored q ts) :=
        List.mem_of_mem_take hp
      have hp3 : p ∈ searchScored q ts :=
        (insertionSort_perm le _).mem_iff.mp hp2
      obtain ⟨hscore, hpos, _⟩ := searchScored_mem q ts p hp3
      exact searchScore_pos_cases q p.2 (hscore ▸ hpos)
    · intro _
      refine ⟨insertionSort le (searchScored q ts), hres, insertionSort_perm le _, ?_, ?_⟩
      · exact (insertionSort_pairwise le htot htrans _).imp (fun h => by simpa [hle] using h)
      · intro c
        apply insertionSort_filter
        intro x y hxy hx
        have h1 : ¬ (y.1 ≤ x.1) := by simpa [hle, decide_eq_false_iff_not] using hxy
        have h2 : x.1 = c := by simpa using hx
        simp only [beq_eq_false_iff_ne, ne_eq]
        omega

/- ----------------------------------------------------------------- -/
/- Lemmas for the synthesis fold                                      -/
/- ----------------------------------------------------------------- -/

lemma find?_map_bump (n s : String) (m : List (String × Nat)) :
    List.find? (fun p => p.1 = s) (m.map (fun p => if p.1 = n then (p.1, p.2 + 1) else p)) =
      (List.find? (fun p => p.1 = s) m).map (fun p => if p.1 = n then (p.1, p.2 + 1) else p) := by
  induction m with
  | nil => simp
  | cons p ps ih =>
    have hkey : ((if p.1 = n then (p.1, p.2 + 1) else p) : String × Nat).1 = p.1 := by
      by_cases hc : p.1 = n <;> simp [hc]
    simp only [List.map_cons]
    by_cases hp : p.1 = s
    · rw [List.find?_cons_of_pos _ (by simpa [hkey] using hp),
          List.find?_cons_of_pos _ (by simpa using hp)]
      simp
    · rw [List.find?_cons_of_neg _ (by simpa [hkey] using hp),
          List.find?_cons_of_neg _ (by simpa using hp), ih]

lemma seenCount_eq_zero_of_not_any (n : String) (m : List (String × Nat))
    (hany : ¬ m.any (fun p => p.1 = n) = true) :
    List.find? (fun p => p.1 = n) m = none := by
  rw [List.find?_eq_none]
  intro p hp hcp
  exact hany (List.any_eq_true.mpr ⟨p, hp, hcp⟩)

lemma map_bump_count (n s : String) (m : List (String × Nat))
    (h : n = s → m.any (fun p => p.1 = n)) :
    seenCount (m.map (fun p => if p.1 = n then (p.1, p.2 + 1) else p)) s =
      seenCount m s + (if n = s then 1 else 0) := by
  unfold seenCount
  rw [find?_map_bump]
  cases hf : List.find? (fun p => p.1 = s) m with
  | none =>
    by_cases hns : n = s
    · exfalso
      subst hns
      rcases List.any_eq_true.mp (h rfl) with ⟨p, hp, hcp⟩
      rw [List.find?_eq_none] at hf
      exact absurd hcp (by simpa using hf p hp)
    · simp [hns]
  | some p =>
    have hps : p.1 = s := by simpa using List.find?_some hf
    by_cases hns : n = s
    · subst hns
      simp [hps]
    · have : ¬ p.1 = n := fun hc => hns (hc ▸ hps ▸ rfl)
      simp [this, hns]

lemma synthStep_count (st : List (String × Nat) × List String) (step s : String) :
    seenCount (synthStep st step).1 s =
      seenCount st.1 s + (if pyStrip step = s then 1 else 0) := by
  unfold synthStep
  dsimp only
  by_cases hany : st.1.any (fun p => p.1 = pyStrip step)
  · rw [if_pos hany]
    exact map_bump_count _ s st.1 (fun _ => hany)
  · rw [if_neg hany]
    rw [map_bump_count _ s _ (fun hns => by
      refine List.any_eq_true.mpr ⟨(pyStrip step, 0), by simp, by simp⟩)]
    have hnone := seenCount_eq_zero_of_not_any (pyStrip step) st.1 hany
    by_cases hns : pyStrip step = s
    · subst hns
      have h1 : seenCount st.1 (pyStrip step) = 0 := by simp [seenCount, hnone]
      have h2 : seenCount (st.1 ++ [(pyStrip step, 0)]) (pyStrip step) = 0 := by
        simp [seenCount, List.find?_append, hnone, List.find?]
      rw [h1, h2]
    · have h2 : seenCount (st.1 ++ [(pyStrip step, 0)]) s = seenCount st.1 s := by
        simp only [seenCount, List.find?_append]
        cases hfs : List.find? (fun p => p.1 = s) st.1 with
        | some q => simp
        | none => simp [List.find?, hns]
      rw [h2]

lemma map_fst_bump (n : String) (m : List (String × Nat)) :
    (m.map (fun p => if p.1 = n then (p.1, p.2 + 1) else p)).map Prod.fst = m.map Prod.fst := by
  rw [List.map_map]
  apply List.map_congr_left
  intro p _
  by_cases hc : p.1 = n <;> simp [hc]

lemma any_key_iff (n : String) (m : List (String × Nat)) :
    (m.any (fun p => p.1 = n)) = true ↔ n ∈ m.map Prod.fst := by
  rw [List.any_eq_true]
  constructor
  · rintro ⟨p, hp, hcp⟩
    exact List.mem_map.mpr ⟨p, hp, by simpa using hcp⟩
  · intro hmem
    rcases List.mem_map.mp hmem with ⟨p, hp, hfst⟩
    exact ⟨p, hp, by simpa using hfst⟩

lemma synthStep_order (st : List (String × Nat) × List String) (step : String)
    (hinv : st.1.map Prod.fst = st.2) :
    (synthStep st step).1.map Prod.fst = (synthStep st step).2 ∧
    (synthStep st step).2 =
      (if pyStrip step ∈ st.2 then st.2 else st.2 ++ [pyStrip step]) := by
  unfold synthStep
  dsimp only
  by_cases hany : st.1.any (fun p => p.1 = pyStrip step)
  · have hmem : pyStrip step ∈ st.2 := hinv ▸ (any_key_iff _ _).mp hany
    rw [if_pos hany, if_pos hmem]
    exact ⟨by rw [map_fst_bump, hinv], rfl⟩
  · have hmem : ¬ pyStrip step ∈ st.2 := fun hm =>
      hany ((any_key_iff _ _).mpr (hinv ▸ hm))
    rw [if_neg hany, if_neg hmem]
    refine ⟨?_, rfl⟩
    rw [map_fst_bump]
    simp [hinv]

lemma synthSteps_fold (steps : List String) :
    ∀ st : List (String × Nat) × List String, st.1.map Prod.fst = st.2 →
    (steps.foldl synthStep st).1.map Prod.fst = (steps.foldl synthStep st).2 ∧
    (steps.foldl synthStep st).2 = st.2 ++ dedupFirstAux st.2 (steps.map pyStrip) ∧
    ∀ s, seenCount (steps.foldl synthStep st).1 s =
      seenCount st.1 s + (steps.map pyStrip).count s := by
  induction steps with
  | nil => intro st hinv; simp [dedupFirstAux, hinv]
  | cons step rest ih =>
    intro st hinv
    obtain ⟨hinv1, horder⟩ := synthStep_order st step hinv
    obtain ⟨ha, hb, hc⟩ := ih (synthStep st step) hinv1
    refine ⟨by rw [List.foldl_cons]; exact ha, ?_, ?_⟩
    · rw [List.foldl_cons, hb, horder]
      by_cases hmem : pyStrip step ∈ st.2
      · simp [List.map_cons, dedupFirstAux, hmem]
      · simp only [List.map_cons, dedupFirstAux, hmem, if_neg, List.foldl_cons]
        simp [List.append_assoc]
    · intro s
      rw [List.foldl_cons, hc s, synthStep_count st step s]
      simp only [List.map_cons, List.count_cons]
      by_cases hns : pyStrip step = s
      · simp [hns]
        omega
      · simp [hns, fun h : s = pyStrip step => hns (by simpa using h.symm)]

lemma synthFold_eq (retrievals : List Retrieval) :
    synthFold retrievals =
      (retrievals.flatMap Retrieval.resolutionSteps).foldl synthStep ([], []) := by
  unfold synthFold
  generalize ([], []) = st
  induction retrievals generalizing st with
  | nil => simp
  | cons r rs ih => simp [List.foldl_append, ih]

lemma dedupFirstAux_subset (l : List String) :
    ∀ seen x, x ∈ dedupFirstAux seen l → x ∈ l := by
  induction l with
  | nil => intro seen x h; simp [dedupFirstAux] at h
  | cons y ys ih =>
    intro seen x h
    by_cases hy : y ∈ seen
    · simp only [dedupFirstAux, if_pos hy] at h
      exact List.mem_cons_of_mem y (ih _ x h)
    · simp only [dedupFirstAux, if_neg hy, List.mem_cons] at h
      rcases h with rfl | h
      · exact List.mem_cons_self x ys
      · exact List.mem_cons_of_mem y (ih _ x h)

lemma synthFold_spec (retrievals : List Retrieval) :
    (synthFold retrievals).2 = dedupFirst (allTrimmedSteps retrievals) ∧
    ∀ s, seenCount (synthFold retrievals).1 s = (allTrimmedSteps retrievals).count s := by
  rw [synthFold_eq]
  obtain ⟨_, horder, hcount⟩ :=
    synthSteps_fold (retrievals.flatMap Retrieval.resolutionSteps) ([], []) (by simp)
  refine ⟨?_, fun s => ?_⟩
  · rw [horder]
    simp [dedupFirst, allTrimmedSteps]
  · rw [hcount s]
    simp [seenCount, allTrimmedSteps]

lemma synthesize_eq (retrievals : List Retrieval) (k : Nat) :
    synthesize_steps_from_retrievals retrievals k =
      (insertionSort (synthKeyLe (synthFold retrievals).1 (synthFold retrievals).2)
        (synthFold retrievals).2).take k := rfl

/-- C9: the synthesis helper returns at most `max_steps` distinct trimmed
step strings drawn from the hit list, ranked by descending count of
occurrences across all hits (ties broken by first-seen order). -/
theorem C9_synthesize_steps (hits : List Retrieval) (k : Nat) :
    (synthesize_steps_from_retrievals hits k).length ≤ k ∧
    (synthesize_steps_from_retrievals hits k).Nodup ∧
    (∀ s ∈ synthesize_steps_from_retrievals hits k,
      ∃ r ∈ hits, ∃ st ∈ r.resolutionSteps, pyStrip st = s) ∧
    ∃ ranked : List String,
      synthesize_steps_from_retrievals hits k = ranked.take k ∧
      ranked.Perm (dedupFirst (allTrimmedSteps hits)) ∧
      List.Pairwise (fun a b =>
        (allTrimmedSteps hits).count b < (allTrimmedSteps hits).count a ∨
        ((allTrimmedSteps hits).count a = (allTrimmedSteps hits).count b ∧
         (dedupFirst (allTrimmedSteps hits)).indexOf a ≤
           (dedupFirst (allTrimmedSteps hits)).indexOf b)) ranked := by
  obtain ⟨horder, hcount⟩ := synthFold_spec hits
  set seen := (synthFold hits).1 with hseen
  set order := (synthFold hits).2 with horderdef
  set le := synthKeyLe seen order with hle
  have htot : ∀ a b, le a b || le b a := by
    intro a b
    simp only [hle, synthKeyLe, Bool.or_eq_true, decide_eq_true_eq, Bool.and_eq_true]
    omega
  have htrans : ∀ a b c, le a b → le b c → le a c := by
    intro a b c hab hbc
    simp only [hle, synthKeyLe, Bool.or_eq_true, decide_eq_true_eq, Bool.and_eq_true] at hab hbc ⊢
    omega
  have hperm : (insertionSort le order).Perm order := insertionSort_perm le order
  have hnd_order : order.Nodup := by
    rw [horder]
    exact dedupFirst_nodup _
  have hranked_perm : (insertionSort le order).Perm (dedupFirst (allTrimmedSteps hits)) := by
    rw [← horder]
    exact hperm
  refine ⟨?_, ?_, ?_, insertionSort le order, synthesize_eq hits k, hranked_perm, ?_⟩
  · rw [synthesize_eq]
    exact le_trans (List.length_take_le k _) (le_refl k)
  · rw [synthesize_eq]
    exact ((hperm.nodup_iff).mpr hnd_order).sublist (List.take_sublist k _)
  · intro s hs
    rw [synthesize_eq] at hs
    have hs1 : s ∈ insertionSort le order := List.mem_of_mem_take hs
    have hs2 : s ∈ dedupFirst (allTrimmedSteps hits) := hranked_perm.mem_iff.mp hs1
    have hs3 : s ∈ allTrimmedSteps hits := dedupFirstAux_subset _ [] s hs2
    rcases List.mem_map.mp hs3 with ⟨st, hst, rfl⟩
    rcases List.mem_flatMap.mp hst with ⟨r, hr, hstr⟩
    exact ⟨r, hr, st, hstr, rfl⟩
  · have hpw := insertionSort_pairwise le htot htrans order
    refine hpw.imp ?_
    intro a b hab
    simp only [hle, synthKeyLe, Bool.or_eq_true, decide_eq_true_eq, Bool.and_eq_true] at hab
    rw [hcount a, hcount b] at hab
    rw [← horder]
    rcases hab with h1 | ⟨h1, h2⟩
    · left; omega
    · right
      exact ⟨by omega, h2⟩

/- ----------------------------------------------------------------- -/
/- Lemmas about the build state machine                               -/
/- ----------------------------------------------------------------- -/

lemma contains_mem (l : List String) (x : String) : l.contains x = true ↔ x ∈ l :=
  ⟨List.mem_of_elem_eq_true, List.elem_eq_true_of_mem⟩

lemma add_node_edges (s : KGState) (k ty l : String) (m : ValFields) :
    (add_node s k ty l m).edges = s.edges := by
  unfold add_node; split <;> rfl

lemma execOps_append (s : KGState) (l1 l2 : List KGOp) :
    execOps s (l1 ++ l2) = execOps (execOps s l1) l2 :=
  List.foldl_append _ _ _ _

lemma execOps_edges (s : KGState) (ops : List KGOp) :
    (execOps s ops).edges = s.edges ++ ops.filterMap edgeOfOp := by
  induction ops generalizing s with
  | nil => simp [execOps]
  | cons op rest ih =>
    cases op with
    | addNode k ty l m =>
      show (execOps (execOp s _) rest).edges = _
      rw [ih]
      simp [execOp, add_node_edges, edgeOfOp]
    | addEdge a b r w =>
      show (execOps (execOp s _) rest).edges = _
      rw [ih]
      simp [execOp, add_edge, edgeOfOp]

lemma add_node_keys_cases (s : KGState) (k ty l : String) (m : ValFields) :
    keysOf (add_node s k ty l m) = keysOf s ∨
    keysOf (add_node s k ty l m) = keysOf s ++ [k] := by
  unfold add_node keysOf
  split
  · exact Or.inl rfl
  · right; simp

lemma mem_keys_add_node_self (s : KGState) (k ty l : String) (m : ValFields) :
    k ∈ keysOf (add_node s k ty l m) := by
  unfold add_node keysOf
  split
  · next h => exact (contains_mem _ _).mp (by simpa [keysOf] using h)
  · simp

lemma keys_mono_execOp (s : KGState) (op : KGOp) : ∀ x ∈ keysOf s, x ∈ keysOf (execOp s op) := by
  intro x hx
  cases op with
  | addNode k ty l m =>
    rcases add_node_keys_cases s k ty l m with h | h <;> simp [execOp, h, hx]
  | addEdge a b r w => exact hx

lemma keys_mono_execOps (s : KGState) (ops : List KGOp) :
    ∀ x ∈ keysOf s, x ∈ keysOf (execOps s ops) := by
  induction ops generalizing s with
  | nil => intro x hx; exact hx
  | cons op rest ih =>
    intro x hx
    exact ih (execOp s op) x (keys_mono_execOp s op x hx)

lemma mem_keys_execOps_addNode (s : KGState) (ops : List KGOp) (k ty l : String) (m : ValFields)
    (h : KGOp.addNode k ty l m ∈ ops) : k ∈ keysOf (execOps s ops) := by
  induction ops generalizing s with
  | nil => simp at h
  | cons op rest ih =>
    rcases List.mem_cons.mp h with rfl | h
    · exact keys_mono_execOps _ rest k (mem_keys_add_node_self s k ty l m)
    · exact ih (execOp s op) h

lemma nodesWf_add_node (s : KGState) (k ty l : String) (m : ValFields)
    (h : nodesWf s) : nodesWf (add_node s k ty l m) := by
  obtain ⟨hnd, hid⟩ := h
  unfold add_node
  split
  · exact ⟨hnd, hid⟩
  · next hc =>
    constructor
    · unfold keysOf at hnd ⊢
      simp only [List.map_append, List.map_cons, List.map_nil]
      rw [List.nodup_append]
      refine ⟨hnd, List.nodup_singleton k, ?_⟩
      intro x hx
      simp only [List.mem_singleton]
      intro hxk
      subst hxk
      exact hc ((contains_mem _ _).mpr (by simpa [keysOf] using hx))
    · intro p hp
      rcases List.mem_append.mp hp with hp | hp
      · exact hid p hp
      · simp only [List.mem_singleton] at hp
        subst hp
        rfl

lemma nodesWf_execOps (s : KGState) (ops : List KGOp) (h : nodesWf s) :
    nodesWf (execOps s ops) := by
  induction ops generalizing s with
  | nil => exact h
  | cons op rest ih =>
    refine ih (execOp s op) ?_
    cases op with
    | addNode k ty l m => exact nodesWf_add_node s k ty l m h
    | addEdge a b r w => exact h

lemma nodesWf_init : nodesWf initKG := by
  constructor <;> simp [initKG, keysOf]

lemma edgesOk_mono (ops : List KGOp) :
    ∀ ks ks' : List String, (∀ x ∈ ks, x ∈ ks') → edgesOk ks ops → edgesOk ks' ops := by
  induction ops with
  | nil => intro ks ks' _ _; trivial
  | cons op rest ih =>
    intro ks ks' hsub hok
    cases op with
    | addNode k ty l m =>
      exact ih (ks ++ [k]) (ks' ++ [k])
        (fun x hx => by
          rcases List.mem_append.mp hx with hx | hx
          · exact List.mem_append.mpr (Or.inl (hsub x hx))
          · exact List.mem_append.mpr (Or.inr hx)) hok
    | addEdge a b r w =>
      obtain ⟨⟨ka, hka, hva⟩, ⟨kb, hkb, hvb⟩, hrest⟩ := hok
      exact ⟨⟨ka, hsub ka hka, hva⟩, ⟨kb, hsub kb hkb, hvb⟩, ih ks ks' hsub hrest⟩

lemma edgesOk_append_ops (l1 l2 : List KGOp) :
    ∀ ks : List String, edgesOk ks l1 → edgesOk (ks ++ nodeKeysOf l1) l2 →
      edgesOk ks (l1 ++ l2) := by
  induction l1 with
  | nil => intro ks _ h2; simpa [nodeKeysOf] using h2
  | cons op rest ih =>
    intro ks h1 h2
    cases op with
    | addNode k ty l m =>
      show edgesOk (ks ++ [k]) (rest ++ l2)
      refine ih (ks ++ [k]) h1 ?_
      refine edgesOk_mono l2 _ _ ?_ h2
      intro x hx
      simp only [nodeKeysOf, List.filterMap_cons] at hx ⊢
      simp only [List.append_assoc, List.mem_append, List.mem_cons] at hx ⊢
      tauto
    | addEdge a b r w =>
      obtain ⟨ha, hb, hrest⟩ := h1
      refine ⟨ha, hb, ih ks hrest ?_⟩
      simpa [nodeKeysOf, List.filterMap_cons] using h2

lemma edgesOk_of_no_edges (ops : List KGOp) :
    ∀ ks, (∀ op ∈ ops, edgeOfOp op = none) → edgesOk ks ops := by
  induction ops with
  | nil => intro ks _; trivial
  | cons op rest ih =>
    intro ks h
    cases op with
    | addNode k ty l m =>
      exact ih (ks ++ [k]) (fun op hop => h op (List.mem_cons_of_mem _ hop))
    | addEdge a b r w =>
      have := h _ (List.mem_cons_self _ rest)
      simp [edgeOfOp] at this

lemma edgesOk_edges_only (ops : List KGOp) :
    ∀ ks, (∀ op ∈ ops, ∃ a b r w, op = .addEdge a b r w ∧
      (∃ k ∈ ks, a = Val.vstr k) ∧ (∃ k ∈ ks, b = Val.vstr k)) → edgesOk ks ops := by
  induction ops with
  | nil => intro ks _; trivial
  | cons op rest ih =>
    intro ks h
    obtain ⟨a, b, r, w, rfl, ha, hb⟩ := h op (List.mem_cons_self _ rest)
    exact ⟨ha, hb, ih ks (fun op hop => h op (List.mem_cons_of_mem _ hop))⟩

lemma edgeEndpointsIn_execOps (ops : List KGOp) :
    ∀ s : KGState, edgeEndpointsIn s → edgesOk (keysOf s) ops →
      edgeEndpointsIn (execOps s ops) := by
  induction ops with
  | nil => intro s hinv _; exact hinv
  | cons op rest ih =>
    intro s hinv hok
    cases op with
    | addNode k ty l m =>
      refine ih (execOp s _) ?_ ?_
      · intro e he
        have he' : e ∈ s.edges := by
          simpa [execOp, add_node_edges] using he
        obtain ⟨⟨ka, hka, hva⟩, ⟨kb, hkb, hvb⟩⟩ := hinv e he'
        exact ⟨⟨ka, keys_mono_execOp s _ ka hka, hva⟩, ⟨kb, keys_mono_execOp s _ kb hkb, hvb⟩⟩
      · show edgesOk (keysOf (add_node s k ty l m)) rest
        rcases add_node_keys_cases s k ty l m with hk | hk
        · refine edgesOk_mono rest (keysOf s ++ [k]) _ ?_ hok
          intro x hx
          rcases List.mem_append.mp hx with hx | hx
          · exact hk ▸ hx
          · simp only [List.mem_singleton] at hx
            subst hx
            exact hk ▸ mem_keys_add_node_self s x ty l m
        · exact hk ▸ hok
    | addEdge a b r w =>
      obtain ⟨ha, hb, hrest⟩ := hok
      refine ih (execOp s _) ?_ ?_
      · intro e he
        simp only [execOp, add_edge, List.mem_append, List.mem_singleton] at he
        rcases he with he | rfl
        · exact hinv e he
        · exact ⟨ha, hb⟩
      · exact hrest

/- ----------------------------------------------------------------- -/
/- Lemmas about id_map                                                -/
/- ----------------------------------------------------------------- -/

lemma idMapGet_dictInsert_self (m : List (String × String)) (k v : String) :
    idMapGet (dictInsert m k v) k = some v := by
  unfold dictInsert idMapGet
  split
  · next hany =>
    induction m with
    | nil => simp at hany
    | cons p ps ih =>
      by_cases hp : p.1 = k
      · simp [List.find?, hp]
      · simp only [List.map_cons, if_neg hp]
        rw [List.find?_cons_of_neg _ (by simpa using hp)]
        exact ih (by simpa [hp] using hany)
  · next hany =>
    induction m with
    | nil => simp [List.find?]
    | cons p ps ih =>
      have hp : ¬ p.1 = k := fun hc => hany (by simp [List.any_cons, hc])
      simp only [List.cons_append]
      rw [List.find?_cons_of_neg _ (by simpa using hp)]
      exact ih (fun hc => hany (by simp only [List.any_cons, hc, Bool.or_true]))

lemma find?_replace_ne (m : List (String × String)) (k v k' : String) (h : ¬ k' = k) :
    List.find? (fun p => p.1 = k') (m.map (fun p => if p.1 = k then (k, v) else p)) =
      List.find? (fun p => p.1 = k') m := by
  induction m with
  | nil => simp
  | cons p ps ih =>
    by_cases hp : p.1 = k
    · have h1 : ¬ p.1 = k' := by rw [hp]; exact fun hc => h hc.symm
      rw [List.map_cons, if_pos hp,
          List.find?_cons_of_neg _ (by simpa using fun hc : k = k' => h hc.symm),
          List.find?_cons_of_neg _ (by simpa using h1)]
      exact ih
    · rw [List.map_cons, if_neg hp]
      by_cases hpk : p.1 = k'
      · rw [List.find?_cons_of_pos _ (by simpa using hpk),
            List.find?_cons_of_pos _ (by simpa using hpk)]
      · rw [List.find?_cons_of_neg _ (by simpa using hpk),
            List.find?_cons_of_neg _ (by simpa using hpk)]
        exact ih

lemma idMapGet_dictInsert_ne (m : List (String × String)) (k v k' : String) (h : ¬ k' = k) :
    idMapGet (dictInsert m k v) k' = idMapGet m k' := by
  unfold dictInsert idMapGet
  split
  · rw [find?_replace_ne m k v k' h]
  · rw [List.find?_append]
    cases hf : List.find? (fun p => p.1 = k') m with
    | some p => simp
    | none =>
      have hkk : ¬ k = k' := fun hc => h hc.symm
      simp [List.find?, hkk]

lemma idMap_values (ts : List ValFields) :
    ∀ m, (∀ p ∈ m, p.2 = make_id "ticket" p.1) →
    ∀ p ∈ ts.foldl
      (fun m t => if truthy (tidRaw t) then dictInsert m (pyStr (tidRaw t)) (ticketNodeId t) else m)
      m, p.2 = make_id "ticket" p.1 := by
  induction ts with
  | nil => intro m hm; exact hm
  | cons t rest ih =>
    intro m hm
    rw [List.foldl_cons]
    refine ih _ ?_
    by_cases ht : truthy (tidRaw t)
    · rw [if_pos ht]
      intro p hp
      unfold dictInsert at hp
      split at hp
      · rcases List.mem_map.mp hp with ⟨q, hq, hpq⟩
        by_cases hqk : q.1 = pyStr (tidRaw t)
        · rw [if_pos hqk] at hpq
          subst hpq
          simp [ticketNodeId]
        · rw [if_neg hqk] at hpq
          subst hpq
          exact hm q hq
      · rcases List.mem_append.mp hp with hp | hp
        · exact hm p hp
        · simp only [List.mem_singleton] at hp
          subst hp
          simp [ticketNodeId]
    · rw [if_neg ht]
      exact hm

lemma idMapGet_mem (m : List (String × String)) (k v : String)
    (h : idMapGet m k = some v) : (k, v) ∈ m := by
  unfold idMapGet at h
  cases hf : List.find? (fun p => p.1 = k) m with
  | none => rw [hf] at h; simp at h
  | some p =>
    rw [hf] at h
    simp only [Option.map_some'] at h
    rw [Option.some.injEq] at h
    have hp1 : p.1 = k := by simpa using List.find?_some hf
    have hmem := List.mem_of_find?_eq_some hf
    rw [← h, ← hp1]
    exact hmem

lemma idMap_get_value (ts : List ValFields) (k v : String)
    (h : idMapGet (idMap ts) k = some v) : v = make_id "ticket" k := by
  have hmem := idMapGet_mem _ _ _ h
  have := idMap_values ts [] (by simp) (k, v) hmem
  simpa using this

lemma idMapFold_present (ts : List ValFields) :
    ∀ m k, ((idMapGet m k).isSome ∨ ∃ t ∈ ts, truthy (tidRaw t) ∧ pyStr (tidRaw t) = k) →
    (idMapGet (ts.foldl
      (fun m t => if truthy (tidRaw t) then dictInsert m (pyStr (tidRaw t)) (ticketNodeId t) else m)
      m) k).isSome := by
  induction ts with
  | nil =>
    intro m k h
    rcases h with h | ⟨t, ht, _⟩
    · exact h
    · simp at ht
  | cons t rest ih =>
    intro m k h
    rw [List.foldl_cons]
    by_cases ht : truthy (tidRaw t)
    · rw [if_pos ht]
      by_cases hk : pyStr (tidRaw t) = k
      · refine ih _ k (Or.inl ?_)
        rw [← hk, idMapGet_dictInsert_self]
        rfl
      · refine ih _ k ?_
        rcases h with h | ⟨t', ht', htr', hk'⟩
        · left
          rw [idMapGet_dictInsert_ne _ _ _ _ (fun hc => hk hc.symm)]
          exact h
        · rcases List.mem_cons.mp ht' with rfl | ht'
          · exact absurd hk' hk
          · exact Or.inr ⟨t', ht', htr', hk'⟩
    · rw [if_neg ht]
      refine ih _ k ?_
      rcases h with h | ⟨t', ht', htr', hk'⟩
      · exact Or.inl h
      · rcases List.mem_cons.mp ht' with rfl | ht'
        · exact absurd htr' ht
        · exact Or.inr ⟨t', ht', htr', hk'⟩

lemma idMap_get_present (ts : List ValFields) (t : ValFields) (ht : t ∈ ts)
    (htr : truthy (tidRaw t)) :
    idMapGet (idMap ts) (pyStr (tidRaw t)) = some (ticketNodeId t) := by
  have hp := idMapFold_present ts [] (pyStr (tidRaw t)) (Or.inr ⟨t, ht, htr, rfl⟩)
  cases hg : idMapGet (idMap ts) (pyStr (tidRaw t)) with
  | none =>
    exfalso
    unfold idMap at hg
    rw [hg] at hp
    simp at hp
  | some v =>
    have hv := idMap_get_value ts _ _ hg
    rw [hv]
    rfl

lemma idMapFold_present_src (ts : List ValFields) :
    ∀ m k, (idMapGet (ts.foldl
      (fun m t => if truthy (tidRaw t) then dictInsert m (pyStr (tidRaw t)) (ticketNodeId t) else m)
      m) k).isSome →
      (idMapGet m k).isSome ∨ ∃ t ∈ ts, truthy (tidRaw t) ∧ pyStr (tidRaw t) = k := by
  induction ts with
  | nil => intro m k h; exact Or.inl h
  | cons t rest ih =>
    intro m k h
    rw [List.foldl_cons] at h
    by_cases ht : truthy (tidRaw t)
    · rw [if_pos ht] at h
      rcases ih _ k h with h' | ⟨t', ht', htr', hk'⟩
      · by_cases hk : pyStr (tidRaw t) = k
        · exact Or.inr ⟨t, List.mem_cons_self t rest, ht, hk⟩
        · rw [idMapGet_dictInsert_ne _ _ _ _ (fun hc => hk hc.symm)] at h'
          exact Or.inl h'
      · exact Or.inr ⟨t', List.mem_cons_of_mem t ht', htr', hk'⟩
    · rw [if_neg ht] at h
      rcases ih _ k h with h' | ⟨t', ht', htr', hk'⟩
      · exact Or.inl h'
      · exact Or.inr ⟨t', List.mem_cons_of_mem t ht', htr', hk'⟩

lemma idMap_present_src (ts : List ValFields) (k : String)
    (h : (idMapGet (idMap ts) k).isSome) :
    ∃ t ∈ ts, truthy (tidRaw t) ∧ pyStr (tidRaw t) = k := by
  rcases idMapFold_present_src ts [] k h with h' | h'
  · simp [idMapGet, List.find?] at h'
  · exact h'

lemma pass1Ops_no_edges (ts : List ValFields) :
    ∀ op ∈ ts.flatMap pass1Ops, edgeOfOp op = none := by
  intro op hop
  rcases List.mem_flatMap.mp hop with ⟨t, _, hopt⟩
  unfold pass1Ops at hopt
  split at hopt
  · simp only [List.mem_singleton] at hopt
    subst hopt
    rfl
  · simp at hopt

lemma ticket_key_in_pass1 (ts : List ValFields) (s : KGState) (t : ValFields)
    (ht : t ∈ ts) (htr : truthy (tidRaw t)) :
    ticketNodeId t ∈ keysOf (execOps s (ts.flatMap pass1Ops)) := by
  refine mem_keys_execOps_addNode s _ (ticketNodeId t) "Ticket"
    (ticketLabel t (ticketNodeId t)) (.cons "ticket" (.vdict t) .nil) ?_
  refine List.mem_flatMap.mpr ⟨t, ht, ?_⟩
  unfold pass1Ops
  rw [if_pos htr]
  exact List.mem_singleton.mpr rfl

lemma present_key_in_pass1_keys (ts : List ValFields) (s : KGState) (k : String)
    (h : (idMapGet (idMap ts) k).isSome) :
    make_id "ticket" k ∈ keysOf (execOps s (ts.flatMap pass1Ops)) := by
  rcases idMap_present_src ts k h with ⟨t, ht, htr, hk⟩
  have := ticket_key_in_pass1 ts s t ht htr
  rw [ticketNodeId, hk] at this
  exact this

lemma edgesOk_node_edge (ks : List String) (k ty l : String) (m : ValFields)
    (x y : Val) (r : String) (w : ℚ)
    (hx : ∃ j ∈ ks ++ [k], x = Val.vstr j) (hy : ∃ j ∈ ks ++ [k], y = Val.vstr j) :
    edgesOk ks [.addNode k ty l m, .addEdge x y r w] :=
  ⟨hx, hy, trivial⟩

lemma vstr_self_right (ks : List String) (k : String) :
    ∃ j ∈ ks ++ [k], Val.vstr k = Val.vstr j :=
  ⟨k, List.mem_append.mpr (Or.inr (List.mem_singleton.mpr rfl)), rfl⟩

lemma vstr_mem_left (ks : List String) (k j : String) (hj : j ∈ ks) :
    ∃ i ∈ ks ++ [k], Val.vstr j = Val.vstr i :=
  ⟨j, List.mem_append.mpr (Or.inl hj), rfl⟩

lemma edgesOk_techOps (ks : List String) (t : ValFields) (tnid : String) (h : tnid ∈ ks) :
    edgesOk ks (techOps t tnid) := by
  unfold techOps
  dsimp only
  split
  · exact edgesOk_node_edge _ _ _ _ _ _ _ _ _ (vstr_self_right _ _) (vstr_mem_left _ _ _ h)
  · trivial

lemma edgesOk_catOps (ks : List String) (t : ValFields) (tnid : String) (l : List KGOp)
    (hok : catOps t tnid = .ok l) (h : tnid ∈ ks) : edgesOk ks l := by
  unfold catOps at hok
  dsimp only at hok
  split at hok
  · split at hok
    · exact absurd hok (by simp)
    · rw [Except.ok.injEq] at hok
      subst hok
      exact edgesOk_node_edge _ _ _ _ _ _ _ _ _ (vstr_mem_left _ _ _ h) (vstr_self_right _ _)
  · rw [Except.ok.injEq] at hok
    subst hok
    trivial

lemma edgesOk_rcOps (ks : List String) (t : ValFields) (tnid : String) (h : tnid ∈ ks) :
    edgesOk ks (rcOps t tnid) := by
  unfold rcOps
  dsimp only
  split
  · exact edgesOk_node_edge _ _ _ _ _ _ _ _ _ (vstr_mem_left _ _ _ h) (vstr_self_right _ _)
  · trivial

lemma edgesOk_assetOps (ks : List String) (t : ValFields) (tnid : String) (h : tnid ∈ ks) :
    edgesOk ks (assetOps t tnid) := by
  unfold assetOps
  dsimp only
  split
  · exact edgesOk_node_edge _ _ _ _ _ _ _ _ _ (vstr_mem_left _ _ _ h) (vstr_self_right _ _)
  · trivial

lemma edgesOk_clientOps (ks : List String) (t : ValFields) (tnid : String) (h : tnid ∈ ks) :
    edgesOk ks (clientOps t tnid) := by
  unfold clientOps
  dsimp only
  split
  · exact edgesOk_node_edge _ _ _ _ _ _ _ _ _ (vstr_mem_left _ _ _ h) (vstr_self_right _ _)
  · trivial

lemma edgesOk_impactOps (ks : List String) (t : ValFields) (tnid : String) (h : tnid ∈ ks) :
    edgesOk ks (impactOps t tnid) := by
  unfold impactOps
  dsimp only
  split
  · exact edgesOk_node_edge _ _ _ _ _ _ _ _ _ (vstr_mem_left _ _ _ h) (vstr_self_right _ _)
  · trivial

lemma edgesOk_stepOps (ks : List String) (t : ValFields) (tnid : String) (h : tnid ∈ ks) :
    edgesOk ks (stepOps t tnid) := by
  unfold stepOps
  generalize extract_steps_from_ticket t = steps
  induction steps generalizing ks with
  | nil => trivial
  | cons st rest ih =>
    rw [List.flatMap_cons]
    refine edgesOk_append_ops _ _ ks ?_ ?_
    · exact edgesOk_node_edge _ _ _ _ _ _ _ _ _ (vstr_mem_left _ _ _ h) (vstr_self_right _ _)
    · refine ih _ ?_
      simp only [nodeKeysOf, List.filterMap_cons]
      exact List.mem_append.mpr (Or.inl h)

lemma edgesOk_pass2Ops (ks : List String) (t : ValFields) (l : List KGOp)
    (hok : pass2Ops t = .ok l) (h : truthy (tidRaw t) → ticketNodeId t ∈ ks) :
    edgesOk ks l := by
  unfold pass2Ops at hok
  split at hok
  · next htr =>
    dsimp only at hok
    have htn : ticketNodeId t ∈ ks := h htr
    cases hc : catOps t (ticketNodeId t) with
    | error er => rw [hc] at hok; exact absurd hok (by simp)
    | ok cOps =>
      rw [hc] at hok
      rw [Except.ok.injEq] at hok
      subst hok
      simp only [List.append_assoc]
      refine edgesOk_append_ops _ _ ks (edgesOk_techOps ks t _ htn) ?_
      refine edgesOk_append_ops _ _ _ (edgesOk_catOps _ t _ cOps hc (by simp [List.mem_append, htn])) ?_
      refine edgesOk_append_ops _ _ _ (edgesOk_rcOps _ t _ (by simp [List.mem_append, htn])) ?_
      refine edgesOk_append_ops _ _ _ (edgesOk_assetOps _ t _ (by simp [List.mem_append, htn])) ?_
      refine edgesOk_append_ops _ _ _ (edgesOk_stepOps _ t _ (by simp [List.mem_append, htn])) ?_
      refine edgesOk_append_ops _ _ _ (edgesOk_clientOps _ t _ (by simp [List.mem_append, htn])) ?_
      exact edgesOk_impactOps _ t _ (by simp [List.mem_append, htn])
  · rw [Except.ok.injEq] at hok
    subst hok
    trivial

lemma edgesOk_pass2All (ts : List ValFields) :
    ∀ ks (opsPT : List (List KGOp)), pass2All ts = .ok opsPT →
      (∀ t ∈ ts, truthy (tidRaw t) → ticketNodeId t ∈ ks) →
      edgesOk ks opsPT.flatten := by
  induction ts with
  | nil =>
    intro ks opsPT hok _
    unfold pass2All at hok
    rw [Except.ok.injEq] at hok
    subst hok
    trivial
  | cons t rest ih =>
    intro ks opsPT hok h
    unfold pass2All at hok
    cases hp : pass2Ops t with
    | error er => rw [hp] at hok; exact absurd hok (by simp)
    | ok l =>
      rw [hp] at hok
      cases hr : pass2All rest with
      | error er => rw [hr] at hok; exact absurd hok (by simp)
      | ok ls =>
        rw [hr] at hok
        rw [Except.ok.injEq] at hok
        subst hok
        rw [List.flatten_cons]
        refine edgesOk_append_ops _ _ ks
          (edgesOk_pass2Ops ks t l hp (h t (List.mem_cons_self t rest))) ?_
        refine ih _ ls hr ?_
        intro t' ht' htr'
        exact List.mem_append.mpr (Or.inl (h t' (List.mem_cons_of_mem t ht') htr'))

lemma edgesOk_explicitOps (ks : List String) (ts : List ValFields)
    (h : ∀ k, (idMapGet (idMap ts) k).isSome → make_id "ticket" k ∈ ks) :
    edgesOk ks (explicitOps (idMap ts) ts) := by
  refine edgesOk_edges_only _ ks ?_
  intro op hop
  rcases List.mem_flatMap.mp hop with ⟨t, ht, hopt⟩
  unfold explicitOpsT at hopt
  split at hopt
  · next htr =>
    dsimp only at hopt
    split at hopt
    · next l heq =>
      rcases List.mem_flatMap.mp hopt with ⟨sid, hsid, hopsid⟩
      cases hg : idMapGet (idMap ts) (pyStr sid) with
      | none => rw [hg] at hopsid; simp at hopsid
      | some b =>
        rw [hg] at hopsid
        have hb : b = make_id "ticket" (pyStr sid) := idMap_get_value ts _ _ hg
        have hbmem : make_id "ticket" (pyStr sid) ∈ ks := h _ (by rw [hg]; rfl)
        have htn := idMap_get_present ts t ht htr
        have htnmem : ticketNodeId t ∈ ks := by
          have := h (pyStr (tidRaw t)) (by rw [htn]; rfl)
          rwa [ticketNodeId]
        simp only [List.mem_cons, List.mem_singleton, List.not_mem_nil, or_false] at hopsid
        rcases hopsid with rfl | rfl
        · exact ⟨_, _, _, _, rfl,
            ⟨ticketNodeId t, htnmem, by rw [htn]; rfl⟩,
            ⟨b, hb ▸ hbmem, rfl⟩⟩
        · exact ⟨_, _, _, _, rfl,
            ⟨b, hb ▸ hbmem, rfl⟩,
            ⟨ticketNodeId t, htnmem, by rw [htn]; rfl⟩⟩
    · simp at hopt
  · simp at hopt

lemma edgesOk_overlapOps (ks : List String) (ts : List ValFields)
    (h : ∀ k, (idMapGet (idMap ts) k).isSome → make_id "ticket" k ∈ ks) :
    edgesOk ks (overlapOps (idMap ts) ts) := by
  refine edgesOk_edges_only _ ks ?_
  intro op hop
  rcases List.mem_flatMap.mp hop with ⟨p, hp, hopp⟩
  unfold overlapOpsPair at hopp
  dsimp only at hopp
  split at hopp
  · simp at hopp
  · split at hopp
    · simp at hopp
    · split at hopp
      · split at hopp
        · next a b hga hgb =>
          split at hopp
          · have ha : a = make_id "ticket" p.1.1 := idMap_get_value ts _ _ hga
            have hb : b = make_id "ticket" p.2.1 := idMap_get_value ts _ _ hgb
            have hamem : a ∈ ks := ha ▸ h _ (by rw [hga]; rfl)
            have hbmem : b ∈ ks := hb ▸ h _ (by rw [hgb]; rfl)
            simp only [List.mem_cons, List.mem_singleton, List.not_mem_nil, or_false] at hopp
            rcases hopp with rfl | rfl
            · exact ⟨_, _, _, _, rfl, ⟨a, hamem, rfl⟩, ⟨b, hbmem, rfl⟩⟩
            · exact ⟨_, _, _, _, rfl, ⟨b, hbmem, rfl⟩, ⟨a, hamem, rfl⟩⟩
          · simp at hopp
        · simp at hopp
      · simp at hopp

lemma build_ok_elim (ts : List ValFields) (n : List KGNode) (e : List KGEdge)
    (h : build_kg_from_tickets ts = .ok (n, e)) :
    ∃ opsPT, pass2All ts = .ok opsPT ∧
      n = (finalState ts opsPT).nodesByKey.map Prod.snd ∧
      e = (finalState ts opsPT).edges := by
  unfold build_kg_from_tickets at h
  dsimp only at h
  cases hm : pass2All ts with
  | error er => rw [hm] at h; exact absurd h (by simp)
  | ok opsPT =>
    rw [hm] at h
    rw [Except.ok.injEq] at h
    refine ⟨opsPT, rfl, ?_, ?_⟩
    · have := congrArg Prod.fst h
      simpa [finalState, initKG] using this.symm
    · have := congrArg Prod.snd h
      simpa [finalState, initKG] using this.symm

lemma finalState_wf (ts : List ValFields) (opsPT : List (List KGOp)) :
    nodesWf (finalState ts opsPT) := by
  unfold finalState
  exact nodesWf_execOps _ _ (nodesWf_execOps _ _ (nodesWf_execOps _ _
    (nodesWf_execOps _ _ nodesWf_init)))

/-- C2: node ids are unique within one build, and `add_node` on an
existing key returns the state unchanged. -/
theorem C2_node_ids_unique (ts : List ValFields) (n : List KGNode) (e : List KGEdge)
    (h : build_kg_from_tickets ts = .ok (n, e)) :
    (n.map KGNode.id).Nodup ∧
    (∀ (s : KGState) (key ty label : String) (meta : ValFields),
      key ∈ keysOf s → add_node s key ty label meta = s) := by
  constructor
  · obtain ⟨opsPT, _, hn, _⟩ := build_ok_elim ts n e h
    obtain ⟨hnd, hid⟩ := finalState_wf ts opsPT
    have : n.map KGNode.id = keysOf (finalState ts opsPT) := by
      rw [hn, keysOf]
      rw [List.map_map]
      exact List.map_congr_left (fun p hp => hid p hp)
    rw [this]
    exact hnd
  · intro s key ty label meta hkey
    unfold add_node
    rw [if_pos ((contains_mem _ _).mpr (show key ∈ s.nodesByKey.map Prod.fst from hkey))]

/-- C2 witness: a concrete two-ticket build. -/
theorem C2_node_ids_unique_witness :
    ∃ n e, build_kg_from_tickets [tkP1, tkP2] = .ok (n, e) ∧
      ((n.map KGNode.id).Nodup ∧
       (∀ (s : KGState) (key ty label : String) (meta : ValFields),
         key ∈ keysOf s → add_node s key ty label meta = s)) :=
  ⟨_, _, rfl, C2_node_ids_unique [tkP1, tkP2] _ _ rfl⟩

/-- C10: every edge of a build refers, through both its endpoints, to the
`id` of a node present in the same build's node list. -/
theorem C10_edge_endpoints (ts : List ValFields) (n : List KGNode) (e : List KGEdge)
    (h : build_kg_from_tickets ts = .ok (n, e)) :
    ∀ ed ∈ e, (∃ nd ∈ n, ed.source = Val.vstr nd.id) ∧
      (∃ nd ∈ n, ed.target = Val.vstr nd.id) := by
  obtain ⟨opsPT, hpt, hn, he⟩ := build_ok_elim ts n e h
  have hkeynode : ∀ k, k ∈ keysOf (finalState ts opsPT) → ∃ nd ∈ n, nd.id = k := by
    intro k hk
    obtain ⟨_, hid⟩ := finalState_wf ts opsPT
    rcases List.mem_map.mp hk with ⟨p, hp, hpk⟩
    exact ⟨p.2, hn ▸ List.mem_map.mpr ⟨p, hp, rfl⟩, by rw [hid p hp, hpk]⟩
  have hinv : edgeEndpointsIn (finalState ts opsPT) := by
    unfold finalState
    set s1 := execOps initKG (ts.flatMap pass1Ops) with hs1
    have hinv1 : edgeEndpointsIn s1 := by
      refine edgeEndpointsIn_execOps _ _ ?_ ?_
      · intro ed hed; simp [initKG] at hed
      · exact edgesOk_of_no_edges _ _ (pass1Ops_no_edges ts)
    have htickets1 : ∀ t ∈ ts, truthy (tidRaw t) → ticketNodeId t ∈ keysOf s1 :=
      fun t ht htr => ticket_key_in_pass1 ts initKG t ht htr
    set s2 := execOps s1 opsPT.flatten with hs2
    have hinv2 : edgeEndpointsIn s2 :=
      edgeEndpointsIn_execOps _ _ hinv1 (edgesOk_pass2All ts _ opsPT hpt htickets1)
    have hpres2 : ∀ k, (idMapGet (idMap ts) k).isSome → make_id "ticket" k ∈ keysOf s2 := by
      intro k hk
      exact keys_mono_execOps s1 _ _ (present_key_in_pass1_keys ts initKG k hk)
    set s3 := execOps s2 (explicitOps (idMap ts) ts) with hs3
    have hinv3 : edgeEndpointsIn s3 :=
      edgeEndpointsIn_execOps _ _ hinv2 (edgesOk_explicitOps _ ts hpres2)
    have hpres3 : ∀ k, (idMapGet (idMap ts) k).isSome → make_id "ticket" k ∈ keysOf s3 :=
      fun k hk => keys_mono_execOps s2 _ _ (hpres2 k hk)
    exact edgeEndpointsIn_execOps _ _ hinv3 (edgesOk_overlapOps _ ts hpres3)
  intro ed hed
  obtain ⟨⟨ka, hka, hva⟩, ⟨kb, hkb, hvb⟩⟩ := hinv ed (he ▸ hed)
  obtain ⟨nda, hnda, hida⟩ := hkeynode ka hka
  obtain ⟨ndb, hndb, hidb⟩ := hkeynode kb hkb
  exact ⟨⟨nda, hnda, by rw [hida]; exact hva⟩, ⟨ndb, hndb, by rw [hidb]; exact hvb⟩⟩

/-- C10 witness: a concrete two-ticket build with technician, category,
step, explicit-similarity and overlap-similarity edges. -/
theorem C10_edge_endpoints_witness :
    ∃ n e, build_kg_from_tickets [tkP1, tkP2] = .ok (n, e) ∧
      ∀ ed ∈ e, (∃ nd ∈ n, ed.source = Val.vstr nd.id) ∧
        (∃ nd ∈ n, ed.target = Val.vstr nd.id) :=
  ⟨_, _, rfl, C10_edge_endpoints [tkP1, tkP2] _ _ rfl⟩

lemma finalState_edges (ts : List ValFields) (opsPT : List (List KGOp)) :
    (finalState ts opsPT).edges =
      opsPT.flatten.filterMap edgeOfOp ++
      (explicitOps (idMap ts) ts).filterMap edgeOfOp ++
      (overlapOps (idMap ts) ts).filterMap edgeOfOp := by
  unfold finalState
  rw [execOps_edges, execOps_edges, execOps_edges, execOps_edges]
  have h1 : (ts.flatMap pass1Ops).filterMap edgeOfOp = [] :=
    List.filterMap_eq_nil_iff.mpr (pass1Ops_no_edges ts)
  simp [initKG, h1, List.append_assoc]

lemma edgeOfOp_pair_ty (k ty l : String) (m : ValFields) (x y : Val) (r : String) (w : ℚ)
    (op : KGOp) (hop : op ∈ [KGOp.addNode k ty l m, .addEdge x y r w])
    (ed : KGEdge) (hed : edgeOfOp op = some ed) : ed.ty = r := by
  rcases List.mem_cons.mp hop with rfl | hop
  · simp [edgeOfOp] at hed
  · simp only [List.mem_singleton] at hop
    subst hop
    simp only [edgeOfOp, Option.some.injEq] at hed
    rw [← hed]

lemma pass2Ops_edge_ty (t : ValFields) (l : List KGOp) (hok : pass2Ops t = .ok l)
    (op : KGOp) (hop : op ∈ l) (ed : KGEdge) (hed : edgeOfOp op = some ed) :
    ed.ty = "resolved" ∨ ed.ty = "category" ∨ ed.ty = "root_cause" ∨ ed.ty = "asset" ∨
    ed.ty = "step" ∨ ed.ty = "client_site" ∨ ed.ty = "impact" := by
  unfold pass2Ops at hok
  split at hok
  · dsimp only at hok
    cases hc : catOps t (ticketNodeId t) with
    | error er => rw [hc] at hok; exact absurd hok (by simp)
    | ok cOps =>
      rw [hc] at hok
      rw [Except.ok.injEq] at hok
      subst hok
      simp only [List.mem_append] at hop
      rcases hop with ((((((hop | hop) | hop) | hop) | hop) | hop) | hop)
      · left
        unfold techOps at hop
        dsimp only at hop
        split at hop
        · exact edgeOfOp_pair_ty _ _ _ _ _ _ _ _ _ hop ed hed
        · simp at hop
      · right; left
        unfold catOps at hc
        dsimp only at hc
        split at hc
        · split at hc
          · exact absurd hc (by simp)
          · rw [Except.ok.injEq] at hc
            subst hc
            exact edgeOfOp_pair_ty _ _ _ _ _ _ _ _ _ hop ed hed
        · rw [Except.ok.injEq] at hc
          subst hc
          simp at hop
      · right; right; left
        unfold rcOps at hop
        dsimp only at hop
        split at hop
        · exact edgeOfOp_pair_ty _ _ _ _ _ _ _ _ _ hop ed hed
        · simp at hop
      · right; right; right; left
        unfold assetOps at hop
        dsimp only at hop
        split at hop
        · exact edgeOfOp_pair_ty _ _ _ _ _ _ _ _ _ hop ed hed
        · simp at hop
      · right; right; right; right; left
        unfold stepOps at hop
        rcases List.mem_flatMap.mp hop with ⟨st, _, hpair⟩
        exact edgeOfOp_pair_ty _ _ _ _ _ _ _ _ _ hpair ed hed
      · right; right; right; right; right; left
        unfold clientOps at hop
        dsimp only at hop
        split at hop
        · exact edgeOfOp_pair_ty _ _ _ _ _ _ _ _ _ hop ed hed
        · simp at hop
      · right; right; right; right; right; right
        unfold impactOps at hop
        dsimp only at hop
        split at hop
        · exact edgeOfOp_pair_ty _ _ _ _ _ _ _ _ _ hop ed hed
        · simp at hop
  · rw [Except.ok.injEq] at hok
    subst hok
    simp at hop

lemma pass2All_edge_ty (ts : List ValFields) (opsPT : List (List KGOp))
    (hpt : pass2All ts = .ok opsPT)
    (op : KGOp) (hop : op ∈ opsPT.flatten) (ed : KGEdge) (hed : edgeOfOp op = some ed) :
    ¬ ed.ty = "similar_to" := by
  induction ts generalizing opsPT with
  | nil =>
    unfold pass2All at hpt
    rw [Except.ok.injEq] at hpt
    subst hpt
    simp at hop
  | cons t rest ih =>
    unfold pass2All at hpt
    cases hp : pass2Ops t with
    | error er => rw [hp] at hpt; exact absurd hpt (by simp)
    | ok l =>
      rw [hp] at hpt
      cases hr : pass2All rest with
      | error er => rw [hr] at hpt; exact absurd hpt (by simp)
      | ok ls =>
        rw [hr] at hpt
        rw [Except.ok.injEq] at hpt
        subst hpt
        rw [List.flatten_cons] at hop
        rcases List.mem_append.mp hop with hop | hop
        · have := pass2Ops_edge_ty t l hp op hop ed hed
          intro hsim
          rw [hsim] at this
          rcases this with h | h | h | h | h | h | h <;> simp at h
        · exact ih ls hr hop

lemma explicit_edge_shape (im : List (String × String)) (ts : List ValFields)
    (op : KGOp) (hop : op ∈ explicitOps im ts) :
    ∃ a b, op = .addEdge a b "similar_to" 1 := by
  rcases List.mem_flatMap.mp hop with ⟨t, _, hopt⟩
  unfold explicitOpsT at hopt
  split at hopt
  · dsimp only at hopt
    split at hopt
    · rcases List.mem_flatMap.mp hopt with ⟨sid, _, hopsid⟩
      cases hg : idMapGet im (pyStr sid) with
      | none => rw [hg] at hopsid; simp at hopsid
      | some b =>
        rw [hg] at hopsid
        simp only [List.mem_cons, List.mem_singleton, List.not_mem_nil, or_false] at hopsid
        rcases hopsid with rfl | rfl
        · exact ⟨_, _, rfl⟩
        · exact ⟨_, _, rfl⟩
    · simp at hopt
  · simp at hopt

lemma overlap_edge_shape (im : List (String × String)) (p : (String × Finset String) × (String × Finset String))
    (op : KGOp) (hop : op ∈ overlapOpsPair im p) :
    ∃ a b, op = .addEdge (Val.vstr a) (Val.vstr b) "similar_to" (overlapScore p.1.2 p.2.2) ∧
      3 / 5 ≤ overlapScore p.1.2 p.2.2 := by
  unfold overlapOpsPair at hop
  dsimp only at hop
  split at hop
  · simp at hop
  · split at hop
    · simp at hop
    · split at hop
      · next hsc =>
        split at hop
        · split at hop
          · simp only [List.mem_cons, List.mem_singleton, List.not_mem_nil, or_false] at hop
            rcases hop with rfl | rfl
            · exact ⟨_, _, rfl, hsc⟩
            · exact ⟨_, _, rfl, hsc⟩
          · simp at hop
        · simp at hop
      · simp at hop

lemma subjectsOf_decomp (A B C : List ValFields) (ti tj : ValFields)
    (hi : truthy (tidRaw ti)) (hj : truthy (tidRaw tj)) :
    subjectsOf (A ++ ti :: (B ++ tj :: C)) =
      subjectsOf A ++ (pyStr (tidRaw ti), subjectTokens ti) ::
        (subjectsOf B ++ (pyStr (tidRaw tj), subjectTokens tj) :: subjectsOf C) := by
  unfold subjectsOf
  simp [List.filterMap_append, List.filterMap_cons, hi, hj]

lemma pairsUpper_mem (X Y Z : List α) (a b : α) :
    (a, b) ∈ pairsUpper (X ++ a :: (Y ++ b :: Z)) := by
  induction X with
  | nil =>
    simp only [List.nil_append, pairsUpper]
    refine List.mem_append.mpr (Or.inl ?_)
    exact List.mem_map.mpr ⟨b, by simp, rfl⟩
  | cons x xs ih =>
    simp only [List.cons_append, pairsUpper]
    exact List.mem_append.mpr (Or.inr ih)

lemma make_id_ne_empty (p v : String) : ¬ make_id p v = "" := by
  intro h
  rw [make_id_eq] at h
  have hd := congrArg String.data h
  simp only [String.data_append] at hd
  have : (p.data ++ [':'] ++ (pySlice 200 (pyUnderscore (pyStrip v))).data ++ [':'] ++
      (pySlice 8 (sha1Hex (pyStrip v))).data).length = ((("" : String)).data).length :=
    congrArg List.length hd
  simp at this

lemma overlapOpsPair_eval (im : List (String × String)) (kI kJ : String)
    (tokI tokJ : Finset String) (a b : String)
    (hne1 : ¬ tokI = ∅) (hne2 : ¬ tokJ = ∅)
    (hsc : 3 / 5 ≤ overlapScore tokI tokJ)
    (hga : idMapGet im kI = some a) (hgb : idMapGet im kJ = some b)
    (ha : ¬ a = "") (hb : ¬ b = "") :
    overlapOpsPair im ((kI, tokI), (kJ, tokJ)) =
      [.addEdge (.vstr a) (.vstr b) "similar_to" (overlapScore tokI tokJ),
       .addEdge (.vstr b) (.vstr a) "similar_to" (overlapScore tokI tokJ)] := by
  unfold overlapOpsPair
  dsimp only
  rw [if_neg (by tauto : ¬ (tokI = ∅ ∨ tokJ = ∅))]
  have hden : ¬ max tokI.card tokJ.card = 0 := by
    have : 0 < tokI.card := Finset.card_pos.mpr (Finset.nonempty_iff_ne_empty.mpr hne1)
    omega
  rw [if_neg hden, if_pos hsc, hga, hgb]
  simp [ha, hb]

lemma overlap_edges_mem_seg (A B C : List ValFields) (ti tj : ValFields)
    (hi : truthy (tidRaw ti)) (hj : truthy (tidRaw tj))
    (htokI : subjectTokens ti ≠ ∅) (htokJ : subjectTokens tj ≠ ∅)
    (hsc : 3 / 5 ≤ overlapScore (subjectTokens ti) (subjectTokens tj)) :
    ({ source := .vstr (ticketNodeId ti), target := .vstr (ticketNodeId tj),
       ty := "similar_to",
       weight := overlapScore (subjectTokens ti) (subjectTokens tj) } : KGEdge) ∈
      (overlapOps (idMap (A ++ ti :: (B ++ tj :: C))) (A ++ ti :: (B ++ tj :: C))).filterMap edgeOfOp ∧
    ({ source := .vstr (ticketNodeId tj), target := .vstr (ticketNodeId ti),
       ty := "similar_to",
       weight := overlapScore (subjectTokens ti) (subjectTokens tj) } : KGEdge) ∈
      (overlapOps (idMap (A ++ ti :: (B ++ tj :: C))) (A ++ ti :: (B ++ tj :: C))).filterMap edgeOfOp := by
  have hti : ti ∈ A ++ ti :: (B ++ tj :: C) := by simp
  have htj : tj ∈ A ++ ti :: (B ++ tj :: C) := by simp
  have hga := idMap_get_present _ ti hti hi
  have hgb := idMap_get_present _ tj htj hj
  have heval := overlapOpsPair_eval (idMap (A ++ ti :: (B ++ tj :: C)))
    (pyStr (tidRaw ti)) (pyStr (tidRaw tj)) (subjectTokens ti) (subjectTokens tj)
    (ticketNodeId ti) (ticketNodeId tj) htokI htokJ hsc hga hgb
    (make_id_ne_empty _ _) (make_id_ne_empty _ _)
  have hpair : ((pyStr (tidRaw ti), subjectTokens ti), (pyStr (tidRaw tj), subjectTokens tj)) ∈
      pairsUpper (subjectsOf (A ++ ti :: (B ++ tj :: C))) := by
    rw [subjectsOf_decomp A B C ti tj hi hj]
    exact pairsUpper_mem _ _ _ _ _
  have hops : ∀ op ∈ [KGOp.addEdge (.vstr (ticketNodeId ti)) (.vstr (ticketNodeId tj))
      "similar_to" (overlapScore (subjectTokens ti) (subjectTokens tj)),
      KGOp.addEdge (.vstr (ticketNodeId tj)) (.vstr (ticketNodeId ti))
      "similar_to" (overlapScore (subjectTokens ti) (subjectTokens tj))],
      op ∈ overlapOps (idMap (A ++ ti :: (B ++ tj :: C))) (A ++ ti :: (B ++ tj :: C)) := by
    intro op hop
    refine List.mem_flatMap.mpr ⟨_, hpair, ?_⟩
    rw [heval]
    exact hop
  constructor
  · exact List.mem_filterMap.mpr
      ⟨KGOp.addEdge (.vstr (ticketNodeId ti)) (.vstr (ticketNodeId tj)) "similar_to"
          (overlapScore (subjectTokens ti) (subjectTokens tj)),
       hops _ (List.mem_cons_self _ _), rfl⟩
  · exact List.mem_filterMap.mpr
      ⟨KGOp.addEdge (.vstr (ticketNodeId tj)) (.vstr (ticketNodeId ti)) "similar_to"
          (overlapScore (subjectTokens ti) (subjectTokens tj)),
       hops _ (List.mem_cons_of_mem _ (List.mem_cons_self _ _)), rfl⟩

/-- C1: for tickets at two distinct positions of the list, both carrying
an identifier and both with non-empty subject token sets, the build output
contains the two `similar_to` edges weighted by the exact token-overlap
score if and only if that score is at least 3/5 (= 0.6, inclusive). -/
theorem C1_overlap_threshold (A B C : List ValFields) (ti tj : ValFields)
    (n : List KGNode) (e : List KGEdge)
    (hi : truthy (tidRaw ti)) (hj : truthy (tidRaw tj))
    (htokI : subjectTokens ti ≠ ∅) (htokJ : subjectTokens tj ≠ ∅)
    (h : build_kg_from_tickets (A ++ ti :: (B ++ tj :: C)) = .ok (n, e)) :
    (({ source := .vstr (ticketNodeId ti), target := .vstr (ticketNodeId tj),
        ty := "similar_to",
        weight := overlapScore (subjectTokens ti) (subjectTokens tj) } : KGEdge) ∈ e ∧
     ({ source := .vstr (ticketNodeId tj), target := .vstr (ticketNodeId ti),
        ty := "similar_to",
        weight := overlapScore (subjectTokens ti) (subjectTokens tj) } : KGEdge) ∈ e) ↔
    3 / 5 ≤ overlapScore (subjectTokens ti) (subjectTokens tj) := by
  obtain ⟨opsPT, hpt, hn, he⟩ := build_ok_elim _ n e h
  have hedges := finalState_edges (A ++ ti :: (B ++ tj :: C)) opsPT
  have hti : ti ∈ A ++ ti :: (B ++ tj :: C) := by simp
  have htj : tj ∈ A ++ ti :: (B ++ tj :: C) := by simp
  have hga := idMap_get_present _ ti hti hi
  have hgb := idMap_get_present _ tj htj hj
  constructor
  · rintro ⟨hmem, -⟩
    rw [he, hedges] at hmem
    rcases List.mem_append.mp hmem with hmem | hmem
    · rcases List.mem_append.mp hmem with hmem | hmem
      · rcases List.mem_filterMap.mp hmem with ⟨op, hop, hed⟩
        exact absurd rfl (pass2All_edge_ty _ opsPT hpt op hop _ hed)
      · rcases List.mem_filterMap.mp hmem with ⟨op, hop, hed⟩
        obtain ⟨a, b, rfl⟩ := explicit_edge_shape _ _ op hop
        simp only [edgeOfOp, Option.some.injEq] at hed
        have hw : (1 : ℚ) = overlapScore (subjectTokens ti) (subjectTokens tj) :=
          congrArg KGEdge.weight hed
        rw [← hw]
        norm_num
    · rcases List.mem_filterMap.mp hmem with ⟨op, hop, hed⟩
      rcases List.mem_flatMap.mp hop with ⟨p, _, hopp⟩
      obtain ⟨a, b, rfl, hsc⟩ := overlap_edge_shape _ p op hopp
      simp only [edgeOfOp, Option.some.injEq] at hed
      have hw : overlapScore p.1.2 p.2.2 = overlapScore (subjectTokens ti) (subjectTokens tj) :=
        congrArg KGEdge.weight hed
      rw [← hw]
      exact hsc
  · intro hsc
    obtain ⟨h1, h2⟩ := overlap_edges_mem_seg A B C ti tj hi hj htokI htokJ hsc
    constructor
    · rw [he, hedges]
      exact List.mem_append.mpr (Or.inr h1)
    · rw [he, hedges]
      exact List.mem_append.mpr (Or.inr h2)

/-- C1 witness: the two printer tickets; their token sets are
`{printer, jam, error}` and `{printer, jam, issue}`, overlap score 2/3. -/
theorem C1_overlap_threshold_witness :
    ∃ n e, build_kg_from_tickets ([] ++ tkP1 :: ([] ++ tkP2 :: [])) = .ok (n, e) ∧
      ((({ source := .vstr (ticketNodeId tkP1), target := .vstr (ticketNodeId tkP2),
           ty := "similar_to",
           weight := overlapScore (subjectTokens tkP1) (subjectTokens tkP2) } : KGEdge) ∈ e ∧
        ({ source := .vstr (ticketNodeId tkP2), target := .vstr (ticketNodeId tkP1),
           ty := "similar_to",
           weight := overlapScore (subjectTokens tkP1) (subjectTokens tkP2) } : KGEdge) ∈ e) ↔
       3 / 5 ≤ overlapScore (subjectTokens tkP1) (subjectTokens tkP2)) :=
  ⟨_, _, rfl, C1_overlap_threshold [] [] [] tkP1 tkP2 _ _
    (by decide) (by decide) (by decide) (by decide) rfl⟩

lemma explicit_edges_mem_seg (ts : List ValFields) (ti tj : ValFields)
    (hti : ti ∈ ts) (htj : tj ∈ ts)
    (hi : truthy (tidRaw ti)) (hj : truthy (tidRaw tj))
    (simL : ValItems) (sid : Val)
    (hsim : pyOr (tget ti "similar_ticket_ids")
      (pyOr (tget ti "similar") (tget ti "relatedTickets")) = .vlist simL)
    (hmem : sid ∈ simL.toList) (hkey : pyStr sid = pyStr (tidRaw tj)) :
    ({ source := .vstr (ticketNodeId ti), target := .vstr (ticketNodeId tj),
       ty := "similar_to", weight := 1 } : KGEdge) ∈
      (explicitOps (idMap ts) ts).filterMap edgeOfOp ∧
    ({ source := .vstr (ticketNodeId tj), target := .vstr (ticketNodeId ti),
       ty := "similar_to", weight := 1 } : KGEdge) ∈
      (explicitOps (idMap ts) ts).filterMap edgeOfOp := by
  have hga := idMap_get_present ts ti hti hi
  have hgb := idMap_get_present ts tj htj hj
  have hops : ∀ op ∈ [KGOp.addEdge (.vstr (ticketNodeId ti)) (.vstr (ticketNodeId tj))
      "similar_to" 1,
      KGOp.addEdge (.vstr (ticketNodeId tj)) (.vstr (ticketNodeId ti)) "similar_to" 1],
      op ∈ explicitOps (idMap ts) ts := by
    intro op hop
    refine List.mem_flatMap.mpr ⟨ti, hti, ?_⟩
    unfold explicitOpsT
    rw [if_pos hi]
    dsimp only
    rw [hsim]
    refine List.mem_flatMap.mpr ⟨sid, hmem, ?_⟩
    rw [hkey, hgb, hga]
    simpa [optVal] using hop
  constructor
  · exact List.mem_filterMap.mpr
      ⟨KGOp.addEdge (.vstr (ticketNodeId ti)) (.vstr (ticketNodeId tj)) "similar_to" 1,
       hops _ (List.mem_cons_self _ _), rfl⟩
  · exact List.mem_filterMap.mpr
      ⟨KGOp.addEdge (.vstr (ticketNodeId tj)) (.vstr (ticketNodeId ti)) "similar_to" 1,
       hops _ (List.mem_cons_of_mem _ (List.mem_cons_self _ _)), rfl⟩

lemma countP_ge_one_of_mem (l : List KGEdge) (e : KGEdge) (p : KGEdge → Bool)
    (hmem : e ∈ l) (hp : p e = true) : 1 ≤ l.countP p :=
  (List.countP_pos_iff).mpr ⟨e, hmem, hp⟩

/-- C4: an explicit similarity hint to a known ticket id yields the
unconditional weight-1.0 `similar_to` edge pair, and the subject-overlap
pass still runs on the same pair, so when its score also reaches 3/5 the
pair receives both the weight-1.0 edges and the score-weighted edges (at
least two `similar_to` edges in each direction). -/
theorem C4_explicit_and_overlap (A B C : List ValFields) (ti tj : ValFields)
    (n : List KGNode) (e : List KGEdge)
    (hi : truthy (tidRaw ti)) (hj : truthy (tidRaw tj))
    (simL : ValItems) (sid : Val)
    (hsim : pyOr (tget ti "similar_ticket_ids")
      (pyOr (tget ti "similar") (tget ti "relatedTickets")) = .vlist simL)
    (hmem : sid ∈ simL.toList) (hkey : pyStr sid = pyStr (tidRaw tj))
    (h : build_kg_from_tickets (A ++ ti :: (B ++ tj :: C)) = .ok (n, e)) :
    ({ source := .vstr (ticketNodeId ti), target := .vstr (ticketNodeId tj),
       ty := "similar_to", weight := 1 } : KGEdge) ∈ e ∧
    ({ source := .vstr (ticketNodeId tj), target := .vstr (ticketNodeId ti),
       ty := "similar_to", weight := 1 } : KGEdge) ∈ e ∧
    (subjectTokens ti ≠ ∅ → subjectTokens tj ≠ ∅ →
      3 / 5 ≤ overlapScore (subjectTokens ti) (subjectTokens tj) →
      ({ source := .vstr (ticketNodeId ti), target := .vstr (ticketNodeId tj),
         ty := "similar_to",
         weight := overlapScore (subjectTokens ti) (subjectTokens tj) } : KGEdge) ∈ e ∧
      ({ source := .vstr (ticketNodeId tj), target := .vstr (ticketNodeId ti),
         ty := "similar_to",
         weight := overlapScore (subjectTokens ti) (subjectTokens tj) } : KGEdge) ∈ e ∧
      2 ≤ e.countP (fun ed => ed.source == Val.vstr (ticketNodeId ti) &&
            ed.target == Val.vstr (ticketNodeId tj) && ed.ty == "similar_to") ∧
      2 ≤ e.countP (fun ed => ed.source == Val.vstr (ticketNodeId tj) &&
            ed.target == Val.vstr (ticketNodeId ti) && ed.ty == "similar_to")) := by
  obtain ⟨opsPT, hpt, hn, he⟩ := build_ok_elim _ n e h
  have hedges := finalState_edges (A ++ ti :: (B ++ tj :: C)) opsPT
  have hti : ti ∈ A ++ ti :: (B ++ tj :: C) := by simp
  have htj : tj ∈ A ++ ti :: (B ++ tj :: C) := by simp
  obtain ⟨hex1, hex2⟩ :=
    explicit_edges_mem_seg (A ++ ti :: (B ++ tj :: C)) ti tj hti htj hi hj simL sid hsim hmem hkey
  refine ⟨?_, ?_, ?_⟩
  · rw [he, hedges]
    exact List.mem_append.mpr (Or.inl (List.mem_append.mpr (Or.inr hex1)))
  · rw [he, hedges]
    exact List.mem_append.mpr (Or.inl (List.mem_append.mpr (Or.inr hex2)))
  · intro htokI htokJ hsc
    obtain ⟨hov1, hov2⟩ := overlap_edges_mem_seg A B C ti tj hi hj htokI htokJ hsc
    refine ⟨?_, ?_, ?_, ?_⟩
    · rw [he, hedges]
      exact List.mem_append.mpr (Or.inr hov1)
    · rw [he, hedges]
      exact List.mem_append.mpr (Or.inr hov2)
    · rw [he, hedges, List.countP_append, List.countP_append]
      have c1 := countP_ge_one_of_mem _ _
        (fun ed => ed.source == Val.vstr (ticketNodeId ti) &&
          ed.target == Val.vstr (ticketNodeId tj) && ed.ty == "similar_to") hex1 (by simp)
      have c2 := countP_ge_one_of_mem _ _
        (fun ed => ed.source == Val.vstr (ticketNodeId ti) &&
          ed.target == Val.vstr (ticketNodeId tj) && ed.ty == "similar_to") hov1 (by simp)
      omega
    · rw [he, hedges, List.countP_append, List.countP_append]
      have c1 := countP_ge_one_of_mem _ _
        (fun ed => ed.source == Val.vstr (ticketNodeId tj) &&
          ed.target == Val.vstr (ticketNodeId ti) && ed.ty == "similar_to") hex2 (by simp)
      have c2 := countP_ge_one_of_mem _ _
        (fun ed => ed.source == Val.vstr (ticketNodeId tj) &&
          ed.target == Val.vstr (ticketNodeId ti) && ed.ty == "similar_to") hov2 (by simp)
      omega

/-- C4 witness: `tkP1` explicitly lists `tkP2`'s id in
`similar_ticket_ids`, and their subjects also overlap with score 2/3. -/
theorem C4_explicit_and_overlap_witness :
    ∃ n e, build_kg_from_tickets ([] ++ tkP1 :: ([] ++ tkP2 :: [])) = .ok (n, e) ∧
      (({ source := .vstr (ticketNodeId tkP1), target := .vstr (ticketNodeId tkP2),
          ty := "similar_to", weight := 1 } : KGEdge) ∈ e ∧
       ({ source := .vstr (ticketNodeId tkP2), target := .vstr (ticketNodeId tkP1),
          ty := "similar_to", weight := 1 } : KGEdge) ∈ e ∧
       (subjectTokens tkP1 ≠ ∅ → subjectTokens tkP2 ≠ ∅ →
        3 / 5 ≤ overlapScore (subjectTokens tkP1) (subjectTokens tkP2) →
        ({ source := .vstr (ticketNodeId tkP1), target := .vstr (ticketNodeId tkP2),
           ty := "similar_to",
           weight := overlapScore (subjectTokens tkP1) (subjectTokens tkP2) } : KGEdge) ∈ e ∧
        ({ source := .vstr (ticketNodeId tkP2), target := .vstr (ticketNodeId tkP1),
           ty := "similar_to",
           weight := overlapScore (subjectTokens tkP1) (subjectTokens tkP2) } : KGEdge) ∈ e ∧
        2 ≤ e.countP (fun ed => ed.source == Val.vstr (ticketNodeId tkP1) &&
              ed.target == Val.vstr (ticketNodeId tkP2) && ed.ty == "similar_to") ∧
        2 ≤ e.countP (fun ed => ed.source == Val.vstr (ticketNodeId tkP2) &&
              ed.target == Val.vstr (ticketNodeId tkP1) && ed.ty == "similar_to"))) :=
  ⟨_, _, rfl, C4_explicit_and_overlap [] [] [] tkP1 tkP2 _ _
    (by decide) (by decide) (ValItems.ofList [.vstr "2"]) (.vstr "2")
    (by decide) (by decide) (by decide) rfl⟩
